import Mathlib

/-!
Verification of the chain validation / dependency / execution-planning engine
of the langfuse-adaptor repository.

The embedding follows the TypeScript source:
  - src/utils/validation.ts        (validateChainSteps, validateDataMapping)
  - src/utils/versioning.ts        (VersionManager.isValidVersion; the external
                                    semver library is modelled for plain x.y.z)
  - src/api/middleware/validation.ts (ChainManager: validateChain,
                                    detectCircularDependencies, findUnreachableSteps,
                                    validateSequentialOrder, buildDependencyGraph,
                                    getChainExecutionPlan, createChain, updateChain,
                                    executeChain)
  - src/adapters/langfuse/langfuse-adapter.ts (in-memory chain store:
                                    createChain, getChain, updateChain,
                                    executeChain, validateChain)

External collaborators are abstracted as explicit parameters:
  - resource resolution (adapter getPrompt/getTemplate) as an oracle
    `resOk : StepType → String → Option String → Bool` (success/failure of the call),
  - Joi schema validation as an oracle returning `Option String`
    (`none` = request passes the schema, `some msg` = the joined Joi messages),
  - uuidv4 as a supply `uuid : Nat → String` indexed by call order,
  - Date.now / Math.random as explicit numeric parameters.

JavaScript Sets are modelled as lists observed only through membership;
JavaScript truthiness on strings (empty string is falsy) is modelled explicitly
where the source relies on it.
-/

/-- Step type: the `type` discriminator of a chain step (`'prompt' | 'template'`). -/
inductive StepType where
  | prompt
  | template
deriving DecidableEq, Repr

/-- `'sequential' | 'parallel'` execution order of a chain. -/
inductive ExecutionOrder where
  | sequential
  | parallel
deriving DecidableEq, Repr

/-- A stored chain step (types/chain.ts `ChainStep`).  The optional
`inputMapping`/`outputMapping` records are opaque to the engine and modelled as
association lists. `order` is a JS number; the engine only compares and
subtracts it, so `Int` is used. -/
structure ChainStep where
  id : String
  name : String
  type : StepType
  resourceId : String
  resourceVersion : Option String := none
  inputMapping : List (String × String) := []
  outputMapping : List (String × String) := []
  condition : Option String := none
  order : Int
deriving DecidableEq, Repr

/-- A request-side chain step (`Omit<ChainStep, 'id'>`); `order` is optional in
the Joi create/update schemas (`chainStepSchema.fork('order', optional)`). -/
structure ChainStepRequest where
  name : String
  type : StepType
  resourceId : String
  resourceVersion : Option String := none
  inputMapping : List (String × String) := []
  outputMapping : List (String × String) := []
  condition : Option String := none
  order : Option Int := none
deriving DecidableEq, Repr

/-- A data-mapping edge (types/common.ts `DataMappingConfig`). -/
structure DataMapping where
  fromStep : String
  toStep : String
  fieldMapping : List (String × String) := []
deriving DecidableEq, Repr

/-- A stored chain (types/chain.ts `ChainResponse`); timestamps are opaque
numbers. -/
structure Chain where
  id : String
  name : String
  description : Option String := none
  label : Option String := none
  tags : List String := []
  steps : List ChainStep
  executionOrder : ExecutionOrder
  dataMapping : List DataMapping := []
  author : String := "system"
  createdAt : Nat := 0
  updatedAt : Nat := 0
  version : String
deriving DecidableEq, Repr

/-- types/chain.ts `CreateChainRequest`. -/
structure CreateChainRequest where
  name : String
  description : Option String := none
  label : Option String := none
  tags : Option (List String) := none
  steps : List ChainStepRequest
  executionOrder : ExecutionOrder
  dataMapping : Option (List DataMapping) := none
deriving DecidableEq, Repr

/-- types/chain.ts `UpdateChainRequest`. -/
structure UpdateChainRequest where
  description : Option String := none
  label : Option String := none
  tags : Option (List String) := none
  steps : Option (List ChainStepRequest) := none
  executionOrder : Option ExecutionOrder := none
  dataMapping : Option (List DataMapping) := none
deriving DecidableEq, Repr

/-- types/chain.ts `ChainExecutionRequest`; the dynamic `any` payloads are
opaque string maps (the engine never inspects them). -/
structure ChainExecutionRequest where
  chainId : String
  version : Option String := none
  initialData : List (String × String) := []
  stepOverrides : List (String × List (String × String)) := []
deriving DecidableEq, Repr

/-- Per-step execution status (`'success' | 'error' | 'skipped'`). -/
inductive StepStatus where
  | success
  | error
  | skipped
deriving DecidableEq, Repr

/-- Chain-level execution status (`'success' | 'error' | 'partial'`); the third
source value `'partial'` is named `partialStatus` here. -/
inductive ChainStatus where
  | success
  | error
  | partialStatus
deriving DecidableEq, Repr

/-- One entry of `ChainExecutionResult.stepResults`. -/
structure StepResult where
  stepId : String
  status : StepStatus
  result : Option String := none
  error : Option String := none
  executionTime : Nat
deriving DecidableEq, Repr

/-- types/chain.ts `ChainExecutionResult`. -/
structure ChainExecutionResult where
  chainId : String
  executionId : String
  status : ChainStatus
  results : List (String × String)
  stepResults : List StepResult
  totalExecutionTime : Nat
  error : Option String := none
deriving DecidableEq, Repr

/-- The `{ valid, errors }` record returned by the adapter's `validateChain`. -/
structure AdapterValidation where
  valid : Bool
  errors : List String
deriving DecidableEq, Repr

/-- The `{ valid, errors, warnings }` record returned by the chain manager's
`validateChain`. -/
structure ValidationReport where
  valid : Bool
  errors : List String
  warnings : List String
deriving DecidableEq, Repr

/-- The `{ valid, errors }` record returned by the validation helpers in
src/utils/validation.ts. -/
structure ValidationOutcome where
  valid : Bool
  errors : List String
deriving DecidableEq, Repr

/-- One entry of the execution plan returned by `getChainExecutionPlan`. -/
structure PlanStep where
  stepId : String
  stepName : String
  order : Int
  dependencies : List String
  dependents : List String
deriving DecidableEq, Repr

/-- The execution plan returned by `getChainExecutionPlan`. -/
structure ExecutionPlan where
  executionOrder : ExecutionOrder
  steps : List PlanStep
  estimatedExecutionTime : Option Nat := none
deriving DecidableEq, Repr

/-- `'prompt'`/`'template'` as interpolated into error messages. -/
def StepType.asString : StepType → String
  | .prompt => "prompt"
  | .template => "template"

/-- `String.intercalate ", "` — the `join(', ')` used throughout the source. -/
def joinComma (l : List String) : String :=
  String.intercalate ", " l

/-- Split a character list on `'.'` (the separator used by version strings). -/
def splitOnDot : List Char → List (List Char)
  | [] => [[]]
  | c :: rest =>
    let r := splitOnDot rest
    if c = '.' then [] :: r
    else
      match r with
      | h :: t => (c :: h) :: t
      | [] => [[c]]

/-- Parse a non-empty all-digit character list as a natural number. -/
def parseNatPlain (cs : List Char) : Option Nat :=
  if cs = [] then none
  else if cs.all (fun c => c.isDigit) then
    some (cs.foldl (fun n c => n * 10 + (c.toNat - 48)) 0)
  else none

/-- Parse a plain `x.y.z` version.  Models the external semver library's
`semver.parse` for the version strings this engine produces (`'1.0.0'` at
create, minor bumps at update). -/
def parseVersion (v : String) : Option (Nat × Nat × Nat) :=
  match (splitOnDot v.data).map parseNatPlain with
  | [some a, some b, some c] => some (a, b, c)
  | _ => none

/-- `VersionManager.isValidVersion` (src/utils/versioning.ts): whether
`semver.valid(version)` is non-null. -/
def isValidVersion (v : String) : Bool :=
  (parseVersion v).isSome

/-- `semver.inc(version, 'minor')`: bump the minor component, reset patch;
`none` models the library returning `null` on an unparsable version. -/
def incMinor (v : String) : Option String :=
  (parseVersion v).map fun p =>
    toString p.1 ++ "." ++ toString (p.2.1 + 1) ++ ".0"

/-- The duplicate-name / order-range scan of `validateChainSteps`
(src/utils/validation.ts): one pass over the steps carrying the set of names
seen so far (`n` is `steps.length`).  A step with no `order` (optional in the
request schema) triggers neither range error, matching JS `undefined < 0` and
`undefined >= n` both being false. -/
def stepScanErrors (n : Nat) : List ChainStepRequest → List String → List String
  | [], _ => []
  | s :: rest, seen =>
    (if s.name ∈ seen then ["Duplicate step name: " ++ s.name] else []) ++
    (match s.order with
     | some v =>
       if v < 0 ∨ (n : Int) ≤ v then
         ["Invalid order for step '" ++ s.name ++ "': " ++ toString v]
       else []
     | none => []) ++
    stepScanErrors n rest (s.name :: seen)

/-- Stable ascending insertion for `Int` (models the numeric ascending
`sort((a, b) => a - b)` over the defined order values). -/
def insertInt (x : Int) : List Int → List Int
  | [] => [x]
  | y :: rest => if y ≤ x then y :: insertInt x rest else x :: y :: rest

/-- Stable insertion sort for `Int`. -/
def sortInts : List Int → List Int
  | [] => []
  | x :: rest => insertInt x (sortInts rest)

/-- Display of an order value in the continuity message (`undefined` for a
missing order, mirroring JS string interpolation). -/
def showOrder : Option Int → String
  | some v => toString v
  | none => "undefined"

/-- The order-continuity scan of `validateChainSteps`: walks the sorted order
values and reports (then stops at) the first index `i` where the value is not
`i`.  JS sorts `undefined` entries to the end of the array regardless of the
comparator. -/
def orderContinuityErrors : List (Option Int) → Nat → List String
  | [], _ => []
  | o :: rest, i =>
    if o = some (i : Int) then orderContinuityErrors rest (i + 1)
    else ["Step order sequence is not continuous: expected " ++ toString i ++
          ", got " ++ showOrder o]

/-- `validateChainSteps` (src/utils/validation.ts). -/
def validateChainSteps (steps : List ChainStepRequest) : ValidationOutcome :=
  let errors1 := stepScanErrors steps.length steps []
  let sortedOrders : List (Option Int) :=
    (sortInts (steps.filterMap (fun s => s.order))).map some ++
    (steps.filter (fun s => s.order = none)).map (fun _ => none)
  let errors := errors1 ++ orderContinuityErrors sortedOrders 0
  { valid := errors.isEmpty, errors := errors }

/-- `validateDataMapping` (src/utils/validation.ts): for each edge, in order,
report unknown `fromStep`, unknown `toStep`, then a self-loop. -/
def validateDataMapping (dataMapping : List DataMapping)
    (steps : List ChainStepRequest) : ValidationOutcome :=
  let names := steps.map (fun s => s.name)
  let errors := dataMapping.flatMap fun m =>
    (if m.fromStep ∈ names then []
     else ["Data mapping references non-existent step: " ++ m.fromStep]) ++
    (if m.toStep ∈ names then []
     else ["Data mapping references non-existent step: " ++ m.toStep]) ++
    (if m.fromStep = m.toStep then
       ["Data mapping cannot map step to itself: " ++ m.fromStep]
     else [])
  { valid := errors.isEmpty, errors := errors }

/-! ### Cycle detection (ChainManager.detectCircularDependencies)

The source is a recursive `hasCycle` closure over three mutable sets
(`visited`, `recursionStack`, `circularDeps`).  Note two source quirks kept
here: a `true`-returning call does **not** remove its node from the recursion
stack, and the neighbour loop aborts at the first cycle found. -/

/-- The mutable state of the DFS: `visited` and `stack` are JS `Set`s (only
membership is observed), `circ` is the `circularDeps` output array. -/
structure DfsState where
  visited : List String
  stack : List String
  circ : List String
deriving DecidableEq, Repr

/-- The adjacency produced by the graph-building loop of
`detectCircularDependencies` (and of `findUnreachableSteps`, which builds the
same structure): `graph[m.fromStep].push(m.toStep)` for each mapping in order. -/
def mappingAdj (dm : List DataMapping) : String → List String :=
  fun n => (dm.filter (fun m => m.fromStep = n)).map (fun m => m.toStep)

/-- The `for (const neighbor of neighbors)` loop body of `hasCycle`.
`visitF` is the recursive call at one less fuel.  On a neighbour already on the
recursion stack the edge is recorded and `true` returned; on a `true` result
from a recursive call the loop aborts (leaving the node on the stack, as the
source does); after a clean pass the node is removed from the stack. -/
def runNeighbors (visitF : String → DfsState → Bool × DfsState) (node : String) :
    List String → DfsState → Bool × DfsState
  | [], st => (false, { st with stack := st.stack.erase node })
  | n :: rest, st =>
    if n ∈ st.visited then
      if n ∈ st.stack then
        (true, { st with circ := st.circ ++ [node ++ " -> " ++ n] })
      else runNeighbors visitF node rest st
    else
      match visitF n st with
      | (true, st2) => (true, st2)
      | (false, st2) => runNeighbors visitF node rest st2

/-- `hasCycle(node)`: mark the node visited, push it on the recursion stack and
scan its neighbours.  The recursion of the source terminates because every
recursive call is on an unvisited node; that measure is materialised as fuel
(`detectCircularDependencies` supplies more fuel than there are nodes). -/
def hasCycleVisit (adj : String → List String) :
    Nat → String → DfsState → Bool × DfsState
  | 0, _, st => (false, st)
  | fuel + 1, node, st =>
    let st1 : DfsState :=
      { st with visited := node :: st.visited, stack := node :: st.stack }
    runNeighbors (hasCycleVisit adj fuel) node (adj node) st1

/-- `ChainManager.detectCircularDependencies`: run the DFS from every
not-yet-visited step name and return the collected `circularDeps`. -/
def detectCircularDependencies (steps : List ChainStep)
    (dm : List DataMapping) : List String :=
  let adj := mappingAdj dm
  let fuel := steps.length + dm.length + 1
  (steps.foldl
    (fun st s =>
      if s.name ∈ st.visited then st
      else (hasCycleVisit adj fuel s.name st).2)
    ⟨[], [], []⟩).circ

/-! ### Reachability (ChainManager.findUnreachableSteps) -/

/-- One round of the BFS `while (queue.length > 0)` loop: pop the queue front,
and for each neighbour not yet reachable mark it and push it.  The neighbour
scan is sequential, so a duplicate neighbour is enqueued once. -/
def bfsReach (adj : String → List String) :
    Nat → List String → List String → List String
  | 0, _, reach => reach
  | _ + 1, [], reach => reach
  | fuel + 1, cur :: queue, reach =>
    let step := (adj cur).foldl
      (fun (p : List String × List String) n =>
        if n ∈ p.2 then p else (p.1 ++ [n], p.2 ++ [n]))
      (queue, reach)
    bfsReach adj fuel step.1 step.2

/-- JS `steps.find(s => s.order === 0)?.name` followed by the truthiness test
`if (firstStep)`: an entry step whose name is the empty string is falsy. -/
def entryStepName (steps : List ChainStep) : Option String :=
  match steps.find? (fun s => s.order = 0) with
  | some s => if s.name = "" then none else some s.name
  | none => none

/-- `ChainManager.findUnreachableSteps`: chains with at most one step are
skipped; otherwise BFS over the mapping graph from the step with `order == 0`
(if any; otherwise nothing is reachable) and every step name not reached is
returned. -/
def findUnreachableSteps (steps : List ChainStep)
    (dm : List DataMapping) : List String :=
  if steps.length ≤ 1 then []
  else
    let adj := mappingAdj dm
    let reachable : List String :=
      match entryStepName steps with
      | some first => bfsReach adj (steps.length + dm.length + 1) [first] [first]
      | none => []
    (steps.map (fun s => s.name)).filter (fun n => ¬ n ∈ reachable)

/-! ### Sequential order gaps (ChainManager.validateSequentialOrder) -/

/-- Stable insertion of a step into a list ascending by `order` (models the
stable JS `sort((a, b) => a.order - b.order)`): `sortByOrder` inserts the
earliest-listed step last into the sorted suffix, so it must pass only the
strictly smaller elements and land *before* any equal-order step — equal-order
steps then keep their original relative order, as the ES2019 stable sort
mandates. -/
def insertByOrder (s : ChainStep) : List ChainStep → List ChainStep
  | [] => [s]
  | t :: rest => if t.order < s.order then t :: insertByOrder s rest else s :: t :: rest

/-- Stable insertion sort of steps by `order`. -/
def sortByOrder : List ChainStep → List ChainStep
  | [] => []
  | s :: rest => insertByOrder s (sortByOrder rest)

/-- The gap-warning message for an adjacent sorted pair. -/
def gapWarning (a b : ChainStep) : String :=
  "Gap in sequential order between steps '" ++ a.name ++ "' and '" ++ b.name ++ "'"

/-- The `for (let i = 0; i < sortedSteps.length - 1; i++)` scan over adjacent
pairs of the sorted steps. -/
def adjacentGapWarnings : List ChainStep → List String
  | [] => []
  | [_] => []
  | a :: b :: rest =>
    (if 1 < b.order - a.order then [gapWarning a b] else []) ++
    adjacentGapWarnings (b :: rest)

/-- `ChainManager.validateSequentialOrder`. -/
def validateSequentialOrder (steps : List ChainStep) : List String :=
  adjacentGapWarnings (sortByOrder steps)

/-! ### Dependency graph (ChainManager.buildDependencyGraph) -/

/-- One vertex record of the dependency graph. -/
structure DepEntry where
  dependencies : List String
  dependents : List String
deriving DecidableEq, Repr

/-- JS `steps.find(s => s.name === x)?.id` followed by the truthiness test of
`if (fromStepId && toStepId)`: a found step whose id is the empty string is
falsy and excludes the edge. -/
def resolveStepId (steps : List ChainStep) (x : String) : Option String :=
  match steps.find? (fun s => s.name = x) with
  | some s => if s.id = "" then none else some s.id
  | none => none

/-- Point update of the graph object (`Record<string, DepEntry>`). -/
def setEntry (g : String → Option DepEntry) (k : String) (v : DepEntry) :
    String → Option DepEntry :=
  fun x => if x = k then some v else g x

/-- `graph[k].dependencies.push(d)`.  The key is always initialised when this
is reached (it is a step id), so the `none` branch is unreachable. -/
def pushDependency (g : String → Option DepEntry) (k d : String) :
    String → Option DepEntry :=
  fun x => if x = k then (g k).map (fun e => { e with dependencies := e.dependencies ++ [d] })
           else g x

/-- `graph[k].dependents.push(d)`; same remark as `pushDependency`. -/
def pushDependent (g : String → Option DepEntry) (k d : String) :
    String → Option DepEntry :=
  fun x => if x = k then (g k).map (fun e => { e with dependents := e.dependents ++ [d] })
           else g x

/-- The initialisation loop: `graph[step.id] = { dependencies: [], dependents: [] }`
for every step. -/
def initDepGraph (steps : List ChainStep) : String → Option DepEntry :=
  steps.foldl (fun g s => setEntry g s.id ⟨[], []⟩) (fun _ => none)

/-- The edge loop body: resolve both endpoint names to step ids and, when both
resolve (JS truthiness), record the dependency and the dependent. -/
def addMappingEdge (steps : List ChainStep) (g : String → Option DepEntry)
    (m : DataMapping) : String → Option DepEntry :=
  match resolveStepId steps m.fromStep, resolveStepId steps m.toStep with
  | some fid, some tid => pushDependent (pushDependency g tid fid) fid tid
  | _, _ => g

/-- `ChainManager.buildDependencyGraph`. -/
def buildDependencyGraph (steps : List ChainStep)
    (dm : List DataMapping) : String → Option DepEntry :=
  dm.foldl (addMappingEdge steps) (initDepGraph steps)

/-! ### The in-memory adapter (src/adapters/langfuse/langfuse-adapter.ts)

The Langfuse client only backs prompts/templates; chains live in the adapter's
in-memory `Map`.  `Except String` models thrown `Error`s. -/

/-- The adapter state observed by the chain engine: the connection flag of
`BaseAdapter` and the in-memory chain store. -/
structure AdapterState where
  connected : Bool
  chains : List (String × Chain)
deriving DecidableEq, Repr

/-- The message of `BaseAdapter.ensureConnected`'s throw. -/
def notConnectedMsg : String :=
  "Adapter is not connected. Call connect() first."

/-- `Map.get` on the chain store. -/
def lookupChain (m : List (String × Chain)) (k : String) : Option Chain :=
  (m.find? (fun p => p.1 = k)).map (fun p => p.2)

/-- `Map.set` on the chain store: replace the binding if the key is present,
append it otherwise. -/
def setChain (m : List (String × Chain)) (k : String) (v : Chain) :
    List (String × Chain) :=
  if m.any (fun p => p.1 = k) then
    m.map (fun p => if p.1 = k then (k, v) else p)
  else m ++ [(k, v)]

/-- `{...step, id, order}`: the stored step built from a request step with a
fresh id and the list position as order. -/
def materializeStep (r : ChainStepRequest) (id : String) (idx : Nat) : ChainStep :=
  { id := id
    name := r.name
    type := r.type
    resourceId := r.resourceId
    resourceVersion := r.resourceVersion
    inputMapping := r.inputMapping
    outputMapping := r.outputMapping
    condition := r.condition
    order := (idx : Int) }

/-- JS `newValue || oldValue` on optional strings: an absent or empty new value
(both falsy) keeps the old one. -/
def jsOrString (newV oldV : Option String) : Option String :=
  match newV with
  | some s => if s = "" then oldV else some s
  | none => oldV

/-- `LangfuseAdapter.getChain` (the `version` parameter is accepted but unused
by the source). -/
def adapterGetChain (st : AdapterState) (id : String) (_version : Option String) :
    Except String Chain :=
  if ¬ st.connected then .error notConnectedMsg
  else
    match lookupChain st.chains id with
    | none => .error ("Chain with id '" ++ id ++ "' not found")
    | some c => .ok c

/-- `LangfuseAdapter.createChain`: a fresh chain id (`uuid 0`), each step
stored with a fresh id (`uuid (i+1)`) and `order` overwritten by its list
position, version `1.0.0`. -/
def adapterCreateChain (uuid : Nat → String) (now : Nat) (st : AdapterState)
    (request : CreateChainRequest) : Except String (Chain × AdapterState) :=
  if ¬ st.connected then .error notConnectedMsg
  else
    let id := uuid 0
    let steps := request.steps.enum.map (fun p => materializeStep p.2 (uuid (p.1 + 1)) p.1)
    let chain : Chain :=
      { id := id
        name := request.name
        description := request.description
        label := request.label
        tags := request.tags.getD []
        steps := steps
        executionOrder := request.executionOrder
        dataMapping := request.dataMapping.getD []
        author := "system"
        createdAt := now
        updatedAt := now
        version := "1.0.0" }
    .ok (chain, { st with chains := setChain st.chains id chain })

/-- `LangfuseAdapter.updateChain`: re-materialises the steps when the request
carries some, bumps the minor version (the source's `semver.inc(...)!` yields
`null` on an unparsable stored version; that JS `null` is modelled as the
equally-invalid version string `"null"`), and stores the merged chain. -/
def adapterUpdateChain (uuid : Nat → String) (now : Nat) (st : AdapterState)
    (id : String) (request : UpdateChainRequest) :
    Except String (Chain × AdapterState) :=
  if ¬ st.connected then .error notConnectedMsg
  else
    match adapterGetChain st id none with
    | .error e => .error e
    | .ok existing =>
      let newVersion := (incMinor existing.version).getD "null"
      let steps :=
        match request.steps with
        | some ss => ss.enum.map (fun p => materializeStep p.2 (uuid p.1) p.1)
        | none => existing.steps
      let updated : Chain :=
        { existing with
          description := jsOrString request.description existing.description
          label := jsOrString request.label existing.label
          tags := request.tags.getD existing.tags
          steps := steps
          executionOrder := request.executionOrder.getD existing.executionOrder
          dataMapping := request.dataMapping.getD existing.dataMapping
          updatedAt := now
          version := newVersion }
      .ok (updated, { st with chains := setChain st.chains id updated })

/-- `LangfuseAdapter.executeChain`: the source's simplified implementation maps
every step of the stored chain to a `success` step result without invoking any
prompt or template; `rand i` models the `Math.random()` simulated execution
time of step `i` and `elapsed` the wall-clock difference. -/
def adapterExecuteChain (uuid : Nat → String) (rand : Nat → Nat) (elapsed : Nat)
    (st : AdapterState) (request : ChainExecutionRequest) :
    Except String ChainExecutionResult :=
  if ¬ st.connected then .error notConnectedMsg
  else
    match adapterGetChain st request.chainId request.version with
    | .error e => .error e
    | .ok chain =>
      let executionId := uuid 0
      let stepResults := chain.steps.enum.map fun p =>
        { stepId := p.2.id
          status := StepStatus.success
          result := some ("Executed step: " ++ p.2.name)
          error := none
          executionTime := rand p.1 : StepResult }
      .ok
        { chainId := request.chainId
          executionId := executionId
          status := ChainStatus.success
          results := [("output", "Chain executed successfully")]
          stepResults := stepResults
          totalExecutionTime := elapsed
          error := none }

/-- The per-step resource check of `LangfuseAdapter.validateChain`: the
`getPrompt`/`getTemplate` probe is the oracle `resOk`; a failing probe becomes
the step's error line. -/
def resourceErrors (resOk : StepType → String → Option String → Bool)
    (steps : List ChainStep) : List String :=
  steps.filterMap fun s =>
    if resOk s.type s.resourceId s.resourceVersion then none
    else some ("Step '" ++ s.name ++ "' references non-existent " ++
               s.type.asString ++ ": " ++ s.resourceId)

/-- `LangfuseAdapter.validateChain`: `ensureConnected` throws outside the try;
a failing `getChain` is caught and returned as `{valid: false, errors: [msg]}`;
otherwise each step's resource reference is probed. -/
def adapterValidateChain (resOk : StepType → String → Option String → Bool)
    (st : AdapterState) (chainId : String) (version : Option String) :
    Except String AdapterValidation :=
  if ¬ st.connected then .error notConnectedMsg
  else
    match adapterGetChain st chainId version with
    | .error e => .ok { valid := false, errors := [e] }
    | .ok chain =>
      let errors := resourceErrors resOk chain.steps
      .ok { valid := errors.isEmpty, errors := errors }

/-! ### The chain manager (ChainManager in src/api/middleware/validation.ts) -/

/-- `ChainManager.validateResourceReferences` over request steps: each step's
resource is probed (the source runs the probes under `Promise.all`; with the
immediate oracle the first failing step in list order is the rejection). -/
def validateResourceReferences (resOk : StepType → String → Option String → Bool)
    (steps : List ChainStepRequest) : Except String Unit :=
  match steps.find? (fun s => ¬ resOk s.type s.resourceId s.resourceVersion) with
  | some s => .error ("Step '" ++ s.name ++ "' references non-existent " ++
                      s.type.asString ++ ": " ++ s.resourceId)
  | none => .ok ()

/-- The `if (value.dataMapping)` block of `ChainManager.createChain`:
data-mapping validation runs only when the request carries a mapping. -/
def createMappingCheck (dataMapping : Option (List DataMapping))
    (steps : List ChainStepRequest) : Except String Unit :=
  match dataMapping with
  | some dmv =>
    let mv := validateDataMapping dmv steps
    if ¬ mv.valid then
      .error ("Data mapping validation failed: " ++ joinComma mv.errors)
    else .ok ()
  | none => .ok ()

/-- `ChainManager.createChain`: Joi schema check, step validation, data-mapping
validation (only when the request carries a mapping), resource references, then
the adapter create.  The state is returned unchanged on every thrown error. -/
def mgrCreateChain (joiErr : CreateChainRequest → Option String)
    (resOk : StepType → String → Option String → Bool)
    (uuid : Nat → String) (now : Nat) (st : AdapterState)
    (request : CreateChainRequest) : Except String Chain × AdapterState :=
  match joiErr request with
  | some m => (.error ("Validation failed: " ++ m), st)
  | none =>
    let sv := validateChainSteps request.steps
    if ¬ sv.valid then
      (.error ("Chain step validation failed: " ++ joinComma sv.errors), st)
    else
      match createMappingCheck request.dataMapping request.steps with
      | .error e => (.error e, st)
      | .ok _ =>
        match validateResourceReferences resOk request.steps with
        | .error e => (.error e, st)
        | .ok _ =>
          match adapterCreateChain uuid now st request with
          | .error e => (.error e, st)
          | .ok (c, st2) => (.ok c, st2)

/-- The `if (value.steps)` block of `ChainManager.updateChain`: step
validation, data-mapping validation (only when the request also carries a
mapping) and resource references run only when the request carries steps. -/
def updateStepsCheck (resOk : StepType → String → Option String → Bool)
    (request : UpdateChainRequest) : Except String Unit :=
  match request.steps with
  | some ss =>
    let sv := validateChainSteps ss
    if ¬ sv.valid then
      .error ("Chain step validation failed: " ++ joinComma sv.errors)
    else
      match createMappingCheck request.dataMapping ss with
      | .error e => .error e
      | .ok _ => validateResourceReferences resOk ss
  | none => .ok ()

/-- `ChainManager.updateChain`: id guard, Joi schema check, existence check,
then — only when the request carries steps — step validation, data-mapping
validation (only when the request also carries a mapping) and resource
references, then the adapter update. -/
def mgrUpdateChain (joiErr : UpdateChainRequest → Option String)
    (resOk : StepType → String → Option String → Bool)
    (uuid : Nat → String) (now : Nat) (st : AdapterState)
    (id : String) (request : UpdateChainRequest) :
    Except String Chain × AdapterState :=
  if id = "" then (.error "Chain ID is required", st)
  else
    match joiErr request with
    | some m => (.error ("Validation failed: " ++ m), st)
    | none =>
      match adapterGetChain st id none with
      | .error e => (.error e, st)
      | .ok _ =>
        match updateStepsCheck resOk request with
        | .error e => (.error e, st)
        | .ok _ =>
          match adapterUpdateChain uuid now st id request with
          | .error e => (.error e, st)
          | .ok (c, st2) => (.ok c, st2)

/-- The body of `ChainManager.validateChain`'s try/catch: all domain failures
are folded into the `errors`/`warnings` lists; only `getChain` and the
adapter's `validateChain` can throw inside the try, both before any error line
is accumulated, so the catch yields exactly the retrieval error line. -/
def chainReport (resOk : StepType → String → Option String → Bool)
    (st : AdapterState) (chainId : String) (version : Option String) :
    ValidationReport :=
  match adapterGetChain st chainId version with
  | .error e => { valid := false
                  errors := ["Failed to retrieve chain: " ++ e]
                  warnings := [] }
  | .ok chain =>
    match adapterValidateChain resOk st chainId version with
    | .error e => { valid := false
                    errors := ["Failed to retrieve chain: " ++ e]
                    warnings := [] }
    | .ok av =>
      let errs1 := if av.valid then [] else av.errors
      let errs2 := errs1 ++
        (if chain.steps.length = 0 then ["Chain must have at least one step"] else [])
      let circularDeps := detectCircularDependencies chain.steps chain.dataMapping
      let errs3 := errs2 ++
        (if 0 < circularDeps.length then
          ["Circular dependencies detected: " ++ joinComma circularDeps]
         else [])
      let unreachable := findUnreachableSteps chain.steps chain.dataMapping
      let warns1 :=
        if 0 < unreachable.length then
          ["Potentially unreachable steps: " ++ joinComma unreachable]
        else []
      let warns2 := warns1 ++
        (if chain.executionOrder = ExecutionOrder.sequential then
          validateSequentialOrder chain.steps
         else [])
      let errs4 := errs3 ++
        (if ¬ isValidVersion chain.version then
          ["Invalid version format: " ++ chain.version]
         else [])
      { valid := errs4.isEmpty, errors := errs4, warnings := warns2 }

/-- `ChainManager.validateChain`: guard on a missing chain id, then the
try/catch body. -/
def mgrValidateChain (resOk : StepType → String → Option String → Bool)
    (st : AdapterState) (chainId : String) (version : Option String) :
    Except String ValidationReport :=
  if chainId = "" then .error "Chain ID is required"
  else .ok (chainReport resOk st chainId version)

/-- `ChainManager.executeChain`: Joi schema check, then the adapter's
validation; a `valid == false` report aborts with the joined errors before the
adapter's execute is reached. -/
def mgrExecuteChain (joiErr : ChainExecutionRequest → Option String)
    (resOk : StepType → String → Option String → Bool)
    (uuid : Nat → String) (rand : Nat → Nat) (elapsed : Nat)
    (st : AdapterState) (request : ChainExecutionRequest) :
    Except String ChainExecutionResult × AdapterState :=
  match joiErr request with
  | some m => (.error ("Validation failed: " ++ m), st)
  | none =>
    match adapterValidateChain resOk st request.chainId request.version with
    | .error e => (.error e, st)
    | .ok v =>
      if ¬ v.valid then
        (.error ("Chain validation failed: " ++ joinComma v.errors), st)
      else
        match adapterExecuteChain uuid rand elapsed st request with
        | .error e => (.error e, st)
        | .ok r => (.ok r, st)

/-- `ChainManager.getChainExecutionPlan`: fetch the chain, build the dependency
graph and emit one plan entry per step (`graph[step.id]?.dependencies || []`). -/
def mgrGetChainExecutionPlan (st : AdapterState) (chainId : String)
    (version : Option String) : Except String ExecutionPlan :=
  match adapterGetChain st chainId version with
  | .error e => .error e
  | .ok chain =>
    let g := buildDependencyGraph chain.steps chain.dataMapping
    .ok
      { executionOrder := chain.executionOrder
        steps := chain.steps.map fun s =>
          { stepId := s.id
            stepName := s.name
            order := s.order
            dependencies := ((g s.id).map (fun e => e.dependencies)).getD []
            dependents := ((g s.id).map (fun e => e.dependents)).getD [] }
        estimatedExecutionTime := none }

/-! ### Completeness of the cycle detection

The following development proves: whenever the data mapping contains a cycle
of length ≥ 2 whose nodes are step names, `detectCircularDependencies` returns
a non-empty list.  The proof follows the classical DFS argument (a node with a
walk back to a recursion-stack node makes the DFS report), made stable against
the fuel of the embedding by a budget invariant: each `hasCycleVisit` call
marks one previously-unvisited node of the finite node universe, so fuel never
runs out when it exceeds the number of unvisited universe nodes. -/

section CycleCompleteness

variable (adj : String → List String) (univ : Finset String)

/-- Number of universe nodes not yet visited: the fuel budget measure. -/
def unseenCount (v : List String) : Nat :=
  (univ.filter (fun x => x ∉ v)).card

/-- A node that has been visited and has left the recursion stack. -/
def IsFinished (st : DfsState) (x : String) : Prop :=
  x ∈ st.visited ∧ x ∉ st.stack

/-- The DFS state invariant: the stack holds distinct visited nodes, and the
out-edges of finished nodes lead only to finished nodes. -/
def GoodState (st : DfsState) : Prop :=
  (∀ x ∈ st.stack, x ∈ st.visited) ∧ st.stack.Nodup ∧
  (∀ a, IsFinished st a → ∀ b ∈ adj a, IsFinished st b)

/-- The finite universe of node names the DFS can ever visit: top-level calls
start at step names and recursive calls follow mapping targets. -/
def cycleUniv (steps : List ChainStep) (dm : List DataMapping) : Finset String :=
  (steps.map (fun s => s.name) ++ dm.map (fun m => m.toStep)).toFinset

/-- What a fuel-sufficient, `false`-returning `hasCycleVisit` call guarantees. -/
structure VisitOut (node : String) (st st' : DfsState) : Prop where
  stackEq : st'.stack = st.stack
  visMono : ∀ x ∈ st.visited, x ∈ st'.visited
  nodeVis : node ∈ st'.visited
  finMono : ∀ x, IsFinished st x → IsFinished st' x
  nodeFin : IsFinished st' node
  good : GoodState adj st'

/-- What a `false`-returning neighbour loop guarantees. -/
structure NeighOut (node : String) (st st' : DfsState) : Prop where
  stackEq : st'.stack = st.stack.erase node
  visMono : ∀ x ∈ st.visited, x ∈ st'.visited
  finMono : ∀ x, IsFinished st x → IsFinished st' x
  nodeFin : IsFinished st' node
  good : GoodState adj st'

theorem unseenCount_cons (x : String) (v : List String) (hu : x ∈ univ)
    (hv : x ∉ v) : unseenCount univ (x :: v) + 1 = unseenCount univ v := by
  have hx : x ∈ univ.filter (fun y => y ∉ v) := by
    simp [Finset.mem_filter, hu, hv]
  have hset : univ.filter (fun y => y ∉ x :: v) =
      (univ.filter (fun y => y ∉ v)).erase x := by
    ext y
    simp only [Finset.mem_filter, Finset.mem_erase, List.mem_cons]
    constructor
    · rintro ⟨hy, hny⟩
      exact ⟨fun h => hny (Or.inl h), hy, fun h => hny (Or.inr h)⟩
    · rintro ⟨hne, hy, hny⟩
      exact ⟨hy, fun h => h.elim hne hny⟩
  have hcard := Finset.card_erase_of_mem hx
  have hpos : 0 < (univ.filter (fun y => y ∉ v)).card :=
    Finset.card_pos.2 ⟨x, hx⟩
  unfold unseenCount
  rw [hset, hcard]
  omega

theorem unseenCount_mono (v w : List String) (h : ∀ x ∈ v, x ∈ w) :
    unseenCount univ w ≤ unseenCount univ v := by
  apply Finset.card_le_card
  intro y hy
  simp only [Finset.mem_filter] at hy ⊢
  exact ⟨hy.1, fun hc => hy.2 (h y hc)⟩

theorem runNeighbors_visited_mono
    (visitF : String → DfsState → Bool × DfsState)
    (hm : ∀ n s, ∀ x ∈ s.visited, x ∈ (visitF n s).2.visited)
    (node : String) :
    ∀ (l : List String) (st : DfsState), ∀ x ∈ st.visited,
      x ∈ (runNeighbors visitF node l st).2.visited := by
  intro l
  induction l with
  | nil => intro st x hx; simpa [runNeighbors] using hx
  | cons n rest ih =>
    intro st x hx
    by_cases hvis : n ∈ st.visited
    · by_cases hstk : n ∈ st.stack
      · simpa [runNeighbors, hvis, hstk] using hx
      · simpa [runNeighbors, hvis, hstk] using ih st x hx
    · rcases hv : visitF n st with ⟨b, st2⟩
      have hx2 : x ∈ st2.visited := by
        have := hm n st x hx
        rwa [hv] at this
      cases b
      · simpa [runNeighbors, hvis, hv] using ih st2 x hx2
      · simpa [runNeighbors, hvis, hv] using hx2

theorem hasCycleVisit_visited_mono (f : Nat) :
    ∀ (node : String) (st : DfsState), ∀ x ∈ st.visited,
      x ∈ (hasCycleVisit adj f node st).2.visited := by
  induction f with
  | zero => intro node st x hx; simpa [hasCycleVisit] using hx
  | succ g ih =>
    intro node st x hx
    have : x ∈ (DfsState.mk (node :: st.visited) (node :: st.stack) st.circ).visited :=
      List.mem_cons_of_mem _ hx
    simpa [hasCycleVisit] using
      runNeighbors_visited_mono (hasCycleVisit adj g) ih node (adj node) _ x this

theorem runNeighbors_circ_append
    (visitF : String → DfsState → Bool × DfsState)
    (hm : ∀ n s, ∃ t, (visitF n s).2.circ = s.circ ++ t)
    (node : String) :
    ∀ (l : List String) (st : DfsState),
      ∃ t, (runNeighbors visitF node l st).2.circ = st.circ ++ t := by
  intro l
  induction l with
  | nil => intro st; exact ⟨[], by simp [runNeighbors]⟩
  | cons n rest ih =>
    intro st
    by_cases hvis : n ∈ st.visited
    · by_cases hstk : n ∈ st.stack
      · exact ⟨[node ++ " -> " ++ n], by simp [runNeighbors, hvis, hstk]⟩
      · simpa [runNeighbors, hvis, hstk] using ih st
    · rcases hv : visitF n st with ⟨b, st2⟩
      have h2 : ∃ t, st2.circ = st.circ ++ t := by
        have := hm n st; rwa [hv] at this
      rcases h2 with ⟨t2, ht2⟩
      cases b
      · rcases ih st2 with ⟨t3, ht3⟩
        refine ⟨t2 ++ t3, ?_⟩
        simp [runNeighbors, hvis, hv, ht3, ht2]
      · exact ⟨t2, by simpa [runNeighbors, hvis, hv] using ht2⟩

theorem hasCycleVisit_circ_append (f : Nat) :
    ∀ (node : String) (st : DfsState),
      ∃ t, (hasCycleVisit adj f node st).2.circ = st.circ ++ t := by
  induction f with
  | zero => intro node st; exact ⟨[], by simp [hasCycleVisit]⟩
  | succ g ih =>
    intro node st
    simpa [hasCycleVisit] using
      runNeighbors_circ_append (hasCycleVisit adj g) ih node (adj node)
        (DfsState.mk (node :: st.visited) (node :: st.stack) st.circ)

theorem runNeighbors_true_circ
    (visitF : String → DfsState → Bool × DfsState)
    (hT : ∀ n s, (visitF n s).1 = true → (visitF n s).2.circ ≠ [])
    (node : String) :
    ∀ (l : List String) (st : DfsState),
      (runNeighbors visitF node l st).1 = true →
      (runNeighbors visitF node l st).2.circ ≠ [] := by
  intro l
  induction l with
  | nil => intro st h; simp [runNeighbors] at h
  | cons n rest ih =>
    intro st h
    by_cases hvis : n ∈ st.visited
    · by_cases hstk : n ∈ st.stack
      · simp [runNeighbors, hvis, hstk]
      · simp only [runNeighbors, if_pos hvis, if_neg hstk] at h ⊢
        exact ih st h
    · rcases hv : visitF n st with ⟨b, st2⟩
      cases b
      · simp only [runNeighbors, if_neg hvis, hv] at h ⊢
        exact ih st2 h
      · have : (visitF n st).1 = true := by rw [hv]
        have hc := hT n st this
        rw [hv] at hc
        simpa [runNeighbors, hvis, hv] using hc

theorem hasCycleVisit_true_circ (f : Nat) :
    ∀ (node : String) (st : DfsState),
      (hasCycleVisit adj f node st).1 = true →
      (hasCycleVisit adj f node st).2.circ ≠ [] := by
  induction f with
  | zero => intro node st h; simp [hasCycleVisit] at h
  | succ g ih =>
    intro node st h
    simp only [hasCycleVisit] at h ⊢
    exact runNeighbors_true_circ (hasCycleVisit adj g) ih node (adj node) _ h

end CycleCompleteness

section CyclePreservation

variable (adj : String → List String) (univ : Finset String)

theorem goodState_mark (node : String) (st : DfsState) (hnv : node ∉ st.visited)
    (hg : GoodState adj st) :
    GoodState adj (DfsState.mk (node :: st.visited) (node :: st.stack) st.circ) := by
  obtain ⟨hsub, hnd, hcl⟩ := hg
  refine ⟨?_, ?_, ?_⟩
  · intro x hx
    rcases List.mem_cons.1 hx with h | h
    · exact h ▸ List.mem_cons_self _ _
    · exact List.mem_cons_of_mem _ (hsub x h)
  · exact List.nodup_cons.2 ⟨fun h => hnv (hsub node h), hnd⟩
  · intro a ha b hb
    obtain ⟨hav, has⟩ := ha
    have hane : a ≠ node := by
      intro h
      exact (has (h ▸ List.mem_cons_self _ _))
    have hav' : a ∈ st.visited := by
      rcases List.mem_cons.1 hav with h | h
      · exact absurd h hane
      · exact h
    have has' : a ∉ st.stack := fun h => has (List.mem_cons_of_mem _ h)
    obtain ⟨hbv, hbs⟩ := hcl a ⟨hav', has'⟩ b hb
    have hbne : b ≠ node := fun h => hnv (h ▸ hbv)
    exact ⟨List.mem_cons_of_mem _ hbv,
      fun h => (List.mem_cons.1 h).elim hbne hbs⟩

theorem isFinished_mark (node : String) (st : DfsState) (hnv : node ∉ st.visited)
    (x : String) (hx : IsFinished st x) :
    IsFinished (DfsState.mk (node :: st.visited) (node :: st.stack) st.circ) x := by
  obtain ⟨hxv, hxs⟩ := hx
  have hne : x ≠ node := fun h => hnv (h ▸ hxv)
  exact ⟨List.mem_cons_of_mem _ hxv,
    fun h => (List.mem_cons.1 h).elim hne hxs⟩

theorem runNeighbors_preserve (f : Nat)
    (visitF : String → DfsState → Bool × DfsState)
    (hVF : ∀ n s, n ∉ s.visited → n ∈ univ →
      unseenCount univ s.visited < f → GoodState adj s →
      (visitF n s).1 = false → VisitOut adj n s (visitF n s).2)
    (node : String) :
    ∀ (l : List String) (st : DfsState) (pre : List String),
      node ∈ st.stack → node ∈ st.visited →
      (∀ b ∈ l, b ∈ univ) →
      adj node = pre ++ l → (∀ b ∈ pre, IsFinished st b) →
      unseenCount univ st.visited < f → GoodState adj st →
      (runNeighbors visitF node l st).1 = false →
      NeighOut adj node st (runNeighbors visitF node l st).2 := by
  intro l
  induction l with
  | nil =>
    intro st pre hstk hvis _ hadjn hpre hb hg _
    simp only [runNeighbors]
    refine ⟨rfl, fun x hx => hx, ?_, ?_, ?_, ?_, ?_⟩
    · intro x hx
      exact ⟨hx.1, fun h => hx.2 (List.mem_of_mem_erase h)⟩
    · refine ⟨hvis, fun h => ?_⟩
      have := (hg.2.1.mem_erase_iff).1 h
      exact this.1 rfl
    · intro x hx
      exact hg.1 x (List.mem_of_mem_erase hx)
    · exact hg.2.1.erase node
    · intro a ha b hb
      by_cases hae : a = node
      · subst hae
        have hbpre : b ∈ pre := by
          have : adj a = pre := by simpa using hadjn
          rwa [this] at hb
        have hfb := hpre b hbpre
        exact ⟨hfb.1, fun h => hfb.2 (List.mem_of_mem_erase h)⟩
      · have has : a ∉ st.stack := by
          intro h
          exact ha.2 ((List.mem_erase_of_ne hae).2 h)
        obtain ⟨hbv, hbs⟩ := hg.2.2 a ⟨ha.1, has⟩ b hb
        exact ⟨hbv, fun h => hbs (List.mem_of_mem_erase h)⟩
  | cons n rest ih =>
    intro st pre hstk hvis hl hadjn hpre hb hg hres
    by_cases hnv : n ∈ st.visited
    · by_cases hns : n ∈ st.stack
      · simp [runNeighbors, hnv, hns] at hres
      · have hadjn' : adj node = (pre ++ [n]) ++ rest := by
          simpa [List.append_assoc] using hadjn
        have hpre' : ∀ b ∈ pre ++ [n], IsFinished st b := by
          intro b hbm
          rcases List.mem_append.1 hbm with h | h
          · exact hpre b h
          · have : b = n := List.mem_singleton.1 h
            exact this ▸ ⟨hnv, hns⟩
        have hres' : (runNeighbors visitF node rest st).1 = false := by
          simpa [runNeighbors, hnv, hns] using hres
        have := ih st (pre ++ [n]) hstk hvis
          (fun b hbm => hl b (List.mem_cons_of_mem _ hbm)) hadjn' hpre' hb hg hres'
        simpa [runNeighbors, hnv, hns] using this
    · rcases hv : visitF n st with ⟨b, st2⟩
      cases b
      · have hvout : VisitOut adj n st st2 := by
          have := hVF n st hnv (hl n (List.mem_cons_self _ _)) hb hg
            (by rw [hv])
          rwa [hv] at this
        have hstk2 : node ∈ st2.stack := hvout.stackEq ▸ hstk
        have hvis2 : node ∈ st2.visited := hvout.visMono node hvis
        have hadjn' : adj node = (pre ++ [n]) ++ rest := by
          simpa [List.append_assoc] using hadjn
        have hpre' : ∀ c ∈ pre ++ [n], IsFinished st2 c := by
          intro c hcm
          rcases List.mem_append.1 hcm with h | h
          · exact hvout.finMono c (hpre c h)
          · have : c = n := List.mem_singleton.1 h
            exact this ▸ hvout.nodeFin
        have hb2 : unseenCount univ st2.visited < f :=
          lt_of_le_of_lt (unseenCount_mono univ _ _ hvout.visMono) hb
        have hres' : (runNeighbors visitF node rest st2).1 = false := by
          simpa [runNeighbors, hnv, hv] using hres
        have hout := ih st2 (pre ++ [n]) hstk2 hvis2
          (fun c hcm => hl c (List.mem_cons_of_mem _ hcm)) hadjn' hpre' hb2
          hvout.good hres'
        have hrw : (runNeighbors visitF node (n :: rest) st) =
            (runNeighbors visitF node rest st2) := by
          simp [runNeighbors, hnv, hv]
        rw [hrw]
        refine ⟨?_, ?_, ?_, hout.nodeFin, hout.good⟩
        · rw [hout.stackEq, hvout.stackEq]
        · intro x hx
          exact hout.visMono x (hvout.visMono x hx)
        · intro x hx
          exact hout.finMono x (hvout.finMono x hx)
      · simp [runNeighbors, hnv, hv] at hres

theorem hasCycleVisit_preserve
    (hadj : ∀ x b, b ∈ adj x → b ∈ univ) (f : Nat) :
    ∀ (node : String) (st : DfsState),
      node ∉ st.visited → node ∈ univ →
      unseenCount univ st.visited < f → GoodState adj st →
      (hasCycleVisit adj f node st).1 = false →
      VisitOut adj node st (hasCycleVisit adj f node st).2 := by
  induction f with
  | zero =>
    intro node st _ _ hb _ _
    exact absurd hb (Nat.not_lt_zero _)
  | succ g ih =>
    intro node st hnv hnu hb hg hres
    have hb1 : unseenCount univ (node :: st.visited) < g := by
      have := unseenCount_cons univ node st.visited hnu hnv
      omega
    have hg1 := goodState_mark adj node st hnv hg
    have hres' : (runNeighbors (hasCycleVisit adj g) node (adj node)
        (DfsState.mk (node :: st.visited) (node :: st.stack) st.circ)).1 = false := by
      simpa [hasCycleVisit] using hres
    have hout := runNeighbors_preserve adj univ g (hasCycleVisit adj g) ih node
      (adj node) (DfsState.mk (node :: st.visited) (node :: st.stack) st.circ) []
      (List.mem_cons_self _ _) (List.mem_cons_self _ _)
      (fun b hbm => hadj node b hbm) rfl (by intro b hbm; simp at hbm) hb1 hg1 hres'
    have hrw : (hasCycleVisit adj (g + 1) node st) =
        (runNeighbors (hasCycleVisit adj g) node (adj node)
          (DfsState.mk (node :: st.visited) (node :: st.stack) st.circ)) := by
      simp [hasCycleVisit]
    rw [hrw]
    refine ⟨?_, ?_, ?_, ?_, hout.nodeFin, hout.good⟩
    · rw [hout.stackEq]
      simp [List.erase_cons_head]
    · intro x hx
      exact hout.visMono x (List.mem_cons_of_mem _ hx)
    · exact hout.visMono node (List.mem_cons_self _ _)
    · intro x hx
      exact hout.finMono x (isFinished_mark node st hnv x hx)

end CyclePreservation

section CycleReach

variable (adj : String → List String) (univ : Finset String)

theorem finished_walk (st : DfsState) (hg : GoodState adj st) :
    ∀ (w : List String) (a b : String),
      List.Chain' (fun x y => y ∈ adj x) w →
      w.head? = some a → w.getLast? = some b →
      IsFinished st a → IsFinished st b := by
  intro w
  induction w with
  | nil => intro a b _ hh _ _; simp at hh
  | cons a0 tail ih =>
    intro a b hch hh hl hfa
    have ha : a = a0 := by simpa using hh.symm
    subst ha
    cases tail with
    | nil =>
      have : b = a := by simpa using hl.symm
      exact this ▸ hfa
    | cons c rest =>
      obtain ⟨hR, hch'⟩ := List.chain'_cons.1 hch
      have hfc : IsFinished st c := hg.2.2 a hfa c hR
      have hl' : (c :: rest).getLast? = some b := by
        simpa [List.getLast?_cons_cons] using hl
      exact ih c b hch' rfl hl' hfc

theorem runNeighbors_reach (f : Nat)
    (visitF : String → DfsState → Bool × DfsState)
    (hVF : ∀ n s, n ∉ s.visited → n ∈ univ →
      unseenCount univ s.visited < f → GoodState adj s →
      (visitF n s).1 = false → VisitOut adj n s (visitF n s).2)
    (hVFR : ∀ (n : String) (s : DfsState) (w : List String) (t : String),
      n ∉ s.visited → n ∈ univ → unseenCount univ s.visited < f →
      GoodState adj s →
      List.Chain' (fun x y => y ∈ adj x) w →
      w.head? = some n → w.getLast? = some t → 2 ≤ w.length →
      t ∈ n :: s.stack → (visitF n s).1 = true)
    (node : String) :
    ∀ (l : List String) (st : DfsState) (v1 : String) (w : List String) (t : String),
      v1 ∈ l → (∀ b ∈ l, b ∈ univ) →
      List.Chain' (fun x y => y ∈ adj x) w →
      w.head? = some v1 → w.getLast? = some t → w ≠ [] →
      t ∈ st.stack → unseenCount univ st.visited < f → GoodState adj st →
      (runNeighbors visitF node l st).1 = true := by
  intro l
  induction l with
  | nil => intro st v1 w t hv1 _ _ _ _ _ _ _ _; simp at hv1
  | cons n rest ih =>
    intro st v1 w t hv1 hl hch hh hlast hne hts hb hg
    by_cases hnvis : n ∈ st.visited
    · by_cases hnstk : n ∈ st.stack
      · simp [runNeighbors, hnvis, hnstk]
      · by_cases hnev : n = v1
        · subst hnev
          have hfin : IsFinished st n := ⟨hnvis, hnstk⟩
          have hft : IsFinished st t :=
            finished_walk adj st hg w n t hch hh hlast hfin
          exact absurd hts hft.2
        · have hv1' : v1 ∈ rest := by
            rcases List.mem_cons.1 hv1 with h | h
            · exact absurd h.symm hnev
            · exact h
          have := ih st v1 w t hv1'
            (fun b hbm => hl b (List.mem_cons_of_mem _ hbm))
            hch hh hlast hne hts hb hg
          simpa [runNeighbors, hnvis, hnstk] using this
    · rcases hv : visitF n st with ⟨b, st2⟩
      cases b
      · by_cases hnev : n = v1
        · subst hnev
          cases w with
          | nil => exact absurd rfl hne
          | cons w0 wtail =>
            have hw0 : w0 = n := by simpa using hh
            subst hw0
            cases wtail with
            | nil =>
              have ht : t = w0 := by simpa using hlast.symm
              subst ht
              exact absurd (hg.1 t hts) hnvis
            | cons c wrest =>
              have htrue := hVFR w0 st (w0 :: c :: wrest) t hnvis
                (hl w0 (List.mem_cons_self _ _)) hb hg hch rfl hlast
                (by simp) (List.mem_cons_of_mem _ hts)
              rw [hv] at htrue
              simp at htrue
        · have hvout : VisitOut adj n st st2 := by
            have := hVF n st hnvis (hl n (List.mem_cons_self _ _)) hb hg
              (by rw [hv])
            rwa [hv] at this
          have hv1' : v1 ∈ rest := by
            rcases List.mem_cons.1 hv1 with h | h
            · exact absurd h.symm hnev
            · exact h
          have hts2 : t ∈ st2.stack := hvout.stackEq ▸ hts
          have hb2 : unseenCount univ st2.visited < f :=
            lt_of_le_of_lt (unseenCount_mono univ _ _ hvout.visMono) hb
          have := ih st2 v1 w t hv1'
            (fun c hcm => hl c (List.mem_cons_of_mem _ hcm))
            hch hh hlast hne hts2 hb2 hvout.good
          simpa [runNeighbors, hnvis, hv] using this
      · simp [runNeighbors, hnvis, hv]

theorem hasCycleVisit_reach
    (hadj : ∀ x b, b ∈ adj x → b ∈ univ) (f : Nat) :
    ∀ (node : String) (st : DfsState) (w : List String) (t : String),
      node ∉ st.visited → node ∈ univ →
      unseenCount univ st.visited < f → GoodState adj st →
      List.Chain' (fun x y => y ∈ adj x) w →
      w.head? = some node → w.getLast? = some t → 2 ≤ w.length →
      t ∈ node :: st.stack →
      (hasCycleVisit adj f node st).1 = true := by
  induction f with
  | zero =>
    intro node st w t _ _ hb _ _ _ _ _ _
    exact absurd hb (Nat.not_lt_zero _)
  | succ g ih =>
    intro node st w t hnv hnu hb hg hch hh hlast hlen hts
    cases w with
    | nil => simp at hh
    | cons w0 wtail =>
      have hw0 : w0 = node := by simpa using hh
      subst hw0
      cases wtail with
      | nil => simp at hlen
      | cons v1 wrest =>
        obtain ⟨hR, hch'⟩ := List.chain'_cons.1 hch
        have hlast' : (v1 :: wrest).getLast? = some t := by
          simpa [List.getLast?_cons_cons] using hlast
        have hb1 : unseenCount univ (w0 :: st.visited) < g := by
          have := unseenCount_cons univ w0 st.visited hnu hnv
          omega
        have hg1 := goodState_mark adj w0 st hnv hg
        have htrue := runNeighbors_reach adj univ g (hasCycleVisit adj g)
          (hasCycleVisit_preserve adj univ hadj g) ih w0 (adj w0)
          (DfsState.mk (w0 :: st.visited) (w0 :: st.stack) st.circ)
          v1 (v1 :: wrest) t hR (fun b hbm => hadj w0 b hbm)
          hch' rfl hlast' (by simp) hts hb1 hg1
        simpa [hasCycleVisit] using htrue

end CycleReach

section CycleAvoid

variable (adj : String → List String) (univ : Finset String)

theorem runNeighbors_avoid (f : Nat)
    (visitF : String → DfsState → Bool × DfsState) (v : String)
    (hcycw : ∃ w, List.Chain' (fun x y => y ∈ adj x) w ∧
      w.head? = some v ∧ w.getLast? = some v ∧ 2 ≤ w.length)
    (hVF : ∀ n s, n ∉ s.visited → n ∈ univ →
      unseenCount univ s.visited < f → GoodState adj s →
      (visitF n s).1 = false → VisitOut adj n s (visitF n s).2)
    (hVFR : ∀ (n : String) (s : DfsState) (w : List String) (t : String),
      n ∉ s.visited → n ∈ univ → unseenCount univ s.visited < f →
      GoodState adj s →
      List.Chain' (fun x y => y ∈ adj x) w →
      w.head? = some n → w.getLast? = some t → 2 ≤ w.length →
      t ∈ n :: s.stack → (visitF n s).1 = true)
    (hVFA : ∀ n s, n ∉ s.visited → n ∈ univ →
      unseenCount univ s.visited < f → GoodState adj s → v ∉ s.visited →
      (visitF n s).1 = false → v ∉ (visitF n s).2.visited)
    (node : String) :
    ∀ (l : List String) (st : DfsState),
      (∀ b ∈ l, b ∈ univ) →
      unseenCount univ st.visited < f → GoodState adj st → v ∉ st.visited →
      (runNeighbors visitF node l st).1 = false →
      v ∉ (runNeighbors visitF node l st).2.visited := by
  intro l
  induction l with
  | nil => intro st _ _ _ hvv _; simpa [runNeighbors] using hvv
  | cons n rest ih =>
    intro st hl hb hg hvv hres
    by_cases hnvis : n ∈ st.visited
    · by_cases hnstk : n ∈ st.stack
      · simp [runNeighbors, hnvis, hnstk] at hres
      · have hres' : (runNeighbors visitF node rest st).1 = false := by
          simpa [runNeighbors, hnvis, hnstk] using hres
        have := ih st (fun b hbm => hl b (List.mem_cons_of_mem _ hbm))
          hb hg hvv hres'
        simpa [runNeighbors, hnvis, hnstk] using this
    · rcases hv : visitF n st with ⟨b, st2⟩
      cases b
      · by_cases hnev : n = v
        · subst hnev
          obtain ⟨w, hch, hh, hlast, hlen⟩ := hcycw
          have htrue := hVFR n st w n hnvis (hl n (List.mem_cons_self _ _))
            hb hg hch hh hlast hlen (List.mem_cons_self _ _)
          rw [hv] at htrue
          simp at htrue
        · have hvout : VisitOut adj n st st2 := by
            have := hVF n st hnvis (hl n (List.mem_cons_self _ _)) hb hg
              (by rw [hv])
            rwa [hv] at this
          have hvv2 : v ∉ st2.visited := by
            have := hVFA n st hnvis (hl n (List.mem_cons_self _ _)) hb hg hvv
              (by rw [hv])
            rwa [hv] at this
          have hb2 : unseenCount univ st2.visited < f :=
            lt_of_le_of_lt (unseenCount_mono univ _ _ hvout.visMono) hb
          have hres' : (runNeighbors visitF node rest st2).1 = false := by
            simpa [runNeighbors, hnvis, hv] using hres
          have := ih st2 (fun c hcm => hl c (List.mem_cons_of_mem _ hcm))
            hb2 hvout.good hvv2 hres'
          simpa [runNeighbors, hnvis, hv] using this
      · simp [runNeighbors, hnvis, hv] at hres

theorem hasCycleVisit_avoid
    (hadj : ∀ x b, b ∈ adj x → b ∈ univ) (v : String)
    (hcycw : ∃ w, List.Chain' (fun x y => y ∈ adj x) w ∧
      w.head? = some v ∧ w.getLast? = some v ∧ 2 ≤ w.length)
    (f : Nat) :
    ∀ (node : String) (st : DfsState),
      node ∉ st.visited → node ∈ univ →
      unseenCount univ st.visited < f → GoodState adj st → v ∉ st.visited →
      (hasCycleVisit adj f node st).1 = false →
      v ∉ (hasCycleVisit adj f node st).2.visited := by
  induction f with
  | zero =>
    intro node st _ _ hb _ _ _
    exact absurd hb (Nat.not_lt_zero _)
  | succ g ih =>
    intro node st hnv hnu hb hg hvv hres
    by_cases hnev : node = v
    · subst hnev
      obtain ⟨w, hch, hh, hlast, hlen⟩ := hcycw
      have htrue := hasCycleVisit_reach adj univ hadj (g + 1) node st w node
        hnv hnu hb hg hch hh hlast hlen (List.mem_cons_self _ _)
      rw [htrue] at hres
      simp at hres
    · have hvne : v ∉ (DfsState.mk (node :: st.visited) (node :: st.stack)
          st.circ).visited := by
        intro h
        rcases List.mem_cons.1 h with h1 | h1
        · exact hnev h1.symm
        · exact hvv h1
      have hb1 : unseenCount univ (node :: st.visited) < g := by
        have := unseenCount_cons univ node st.visited hnu hnv
        omega
      have hg1 := goodState_mark adj node st hnv hg
      have hres' : (runNeighbors (hasCycleVisit adj g) node (adj node)
          (DfsState.mk (node :: st.visited) (node :: st.stack) st.circ)).1 = false := by
        simpa [hasCycleVisit] using hres
      have := runNeighbors_avoid adj univ g (hasCycleVisit adj g) v hcycw
        (hasCycleVisit_preserve adj univ hadj g)
        (hasCycleVisit_reach adj univ hadj g) ih node (adj node)
        (DfsState.mk (node :: st.visited) (node :: st.stack) st.circ)
        (fun b hbm => hadj node b hbm) hb1 hg1 hvne hres'
      simpa [hasCycleVisit] using this

end CycleAvoid

theorem mappingAdj_mem_univ (steps : List ChainStep) (dm : List DataMapping) :
    ∀ x b, b ∈ mappingAdj dm x → b ∈ cycleUniv steps dm := by
  intro x b hb
  simp only [mappingAdj, List.mem_map, List.mem_filter] at hb
  obtain ⟨m, ⟨hm, _⟩, hbm⟩ := hb
  have : b ∈ dm.map (fun m => m.toStep) :=
    List.mem_map.2 ⟨m, hm, hbm⟩
  simp only [cycleUniv, List.mem_toFinset, List.mem_append]
  exact Or.inr this

theorem stepName_mem_univ (steps : List ChainStep) (dm : List DataMapping)
    (s : ChainStep) (hs : s ∈ steps) : s.name ∈ cycleUniv steps dm := by
  simp only [cycleUniv, List.mem_toFinset, List.mem_append]
  exact Or.inl (List.mem_map.2 ⟨s, hs, rfl⟩)

theorem cycleBudget_lt (steps : List ChainStep) (dm : List DataMapping)
    (v : List String) :
    unseenCount (cycleUniv steps dm) v < steps.length + dm.length + 1 := by
  have h1 : unseenCount (cycleUniv steps dm) v ≤ (cycleUniv steps dm).card :=
    Finset.card_le_card (Finset.filter_subset _ _)
  have h2 : (cycleUniv steps dm).card ≤
      (steps.map (fun s => s.name) ++ dm.map (fun m => m.toStep)).length :=
    List.toFinset_card_le _
  simp only [List.length_append, List.length_map] at h2
  omega

theorem detect_fold_circ_ne (adj : String → List String) (fuel : Nat) :
    ∀ (L : List ChainStep) (st : DfsState), st.circ ≠ [] →
      (L.foldl (fun st s => if s.name ∈ st.visited then st
        else (hasCycleVisit adj fuel s.name st).2) st).circ ≠ [] := by
  intro L
  induction L with
  | nil => intro st h; simpa using h
  | cons s rest ih =>
    intro st h
    simp only [List.foldl_cons]
    by_cases hm : s.name ∈ st.visited
    · simpa [hm] using ih st h
    · obtain ⟨t, ht⟩ := hasCycleVisit_circ_append adj fuel s.name st
      have hne : (hasCycleVisit adj fuel s.name st).2.circ ≠ [] := by
        rw [ht]
        intro hcontra
        exact h (List.append_eq_nil.1 hcontra).1
      simpa [hm] using ih _ hne

theorem detect_fold_inv (adj : String → List String) (univ : Finset String)
    (hadj : ∀ x b, b ∈ adj x → b ∈ univ) (fuel : Nat)
    (hbud : ∀ vl : List String, unseenCount univ vl < fuel) (v : String)
    (hcycw : ∃ w, List.Chain' (fun x y => y ∈ adj x) w ∧
      w.head? = some v ∧ w.getLast? = some v ∧ 2 ≤ w.length) :
    ∀ (L : List ChainStep) (st : DfsState),
      (∀ s ∈ L, s.name ∈ univ) →
      (st.circ ≠ [] ∨ (st.stack = [] ∧ GoodState adj st ∧ v ∉ st.visited)) →
      ((L.foldl (fun st s => if s.name ∈ st.visited then st
        else (hasCycleVisit adj fuel s.name st).2) st).circ ≠ [] ∨
       ((L.foldl (fun st s => if s.name ∈ st.visited then st
        else (hasCycleVisit adj fuel s.name st).2) st).stack = [] ∧
        GoodState adj (L.foldl (fun st s => if s.name ∈ st.visited then st
        else (hasCycleVisit adj fuel s.name st).2) st) ∧
        v ∉ (L.foldl (fun st s => if s.name ∈ st.visited then st
        else (hasCycleVisit adj fuel s.name st).2) st).visited)) := by
  intro L
  induction L with
  | nil => intro st _ h; simpa using h
  | cons s rest ih =>
    intro st hL hP
    simp only [List.foldl_cons]
    by_cases hm : s.name ∈ st.visited
    · simp only [if_pos hm]
      exact ih st (fun x hx => hL x (List.mem_cons_of_mem _ hx)) hP
    · simp only [if_neg hm]
      rcases hP with hne | ⟨hstk, hg, hva⟩
      · obtain ⟨t, ht⟩ := hasCycleVisit_circ_append adj fuel s.name st
        refine ih _ (fun x hx => hL x (List.mem_cons_of_mem _ hx)) (Or.inl ?_)
        rw [ht]
        intro hcontra
        exact hne (List.append_eq_nil.1 hcontra).1
      · cases hres : (hasCycleVisit adj fuel s.name st).1 with
        | true =>
          refine ih _ (fun x hx => hL x (List.mem_cons_of_mem _ hx)) (Or.inl ?_)
          exact hasCycleVisit_true_circ adj fuel s.name st hres
        | false =>
          have hout := hasCycleVisit_preserve adj univ hadj fuel s.name st hm
            (hL s (List.mem_cons_self _ _)) (hbud st.visited) hg hres
          have hva2 := hasCycleVisit_avoid adj univ hadj v hcycw fuel s.name st
            hm (hL s (List.mem_cons_self _ _)) (hbud st.visited) hg hva hres
          refine ih _ (fun x hx => hL x (List.mem_cons_of_mem _ hx))
            (Or.inr ⟨?_, hout.good, hva2⟩)
          rw [hout.stackEq, hstk]

/-- Completeness of `detectCircularDependencies`: a data mapping containing a
cycle of length at least 2 among the step names always yields a non-empty
result, regardless of the step orders or of where the DFS first reaches the
cycle. -/
theorem detectCircularDependencies_complete
    (steps : List ChainStep) (dm : List DataMapping)
    (a : String) (l : List String)
    (_hl : l ≠ []) (_hnd : (a :: l).Nodup)
    (hmem : ∀ x ∈ a :: l, x ∈ steps.map (fun s => s.name))
    (hch : List.Chain' (fun x y => y ∈ mappingAdj dm x) ((a :: l) ++ [a])) :
    detectCircularDependencies steps dm ≠ [] := by
  have hcycw : ∃ w, List.Chain' (fun x y => y ∈ mappingAdj dm x) w ∧
      w.head? = some a ∧ w.getLast? = some a ∧ 2 ≤ w.length :=
    ⟨(a :: l) ++ [a], hch, rfl, List.getLast?_concat _, by simp⟩
  obtain ⟨s0, hs0mem, hs0name⟩ := List.mem_map.1 (hmem a (List.mem_cons_self _ _))
  obtain ⟨L1, L2, hsplit⟩ := List.append_of_mem hs0mem
  have hbud := cycleBudget_lt steps dm
  have hadj := mappingAdj_mem_univ steps dm
  have hauniv : a ∈ cycleUniv steps dm :=
    hs0name ▸ stepName_mem_univ steps dm s0 hs0mem
  show (steps.foldl (fun st s => if s.name ∈ st.visited then st
    else (hasCycleVisit (mappingAdj dm) (steps.length + dm.length + 1)
      s.name st).2) ⟨[], [], []⟩).circ ≠ []
  set F := steps.length + dm.length + 1 with hF
  rw [hsplit, List.foldl_append, List.foldl_cons]
  have hL1 : ∀ s ∈ L1, s.name ∈ cycleUniv steps dm := by
    intro s hs
    exact stepName_mem_univ steps dm s (hsplit ▸ List.mem_append_left _ hs)
  have hinit : (DfsState.mk [] [] []).circ ≠ [] ∨
      ((DfsState.mk [] [] []).stack = [] ∧
       GoodState (mappingAdj dm) (DfsState.mk [] [] []) ∧
       a ∉ (DfsState.mk [] [] []).visited) := by
    refine Or.inr ⟨rfl, ⟨?_, List.nodup_nil, ?_⟩, by simp⟩
    · intro x hx; simp at hx
    · intro x hx; exact absurd hx.1 (by simp)
  have hmid := detect_fold_inv (mappingAdj dm) (cycleUniv steps dm) hadj
    F hbud a hcycw L1 ⟨[], [], []⟩ hL1 hinit
  set stm := L1.foldl (fun st s => if s.name ∈ st.visited then st
    else (hasCycleVisit (mappingAdj dm) F s.name st).2)
    (⟨[], [], []⟩ : DfsState) with hstm
  rcases hmid with hne | ⟨hstk, hg, hva⟩
  · apply detect_fold_circ_ne
    by_cases hm : s0.name ∈ stm.visited
    · simpa [hm] using hne
    · obtain ⟨t, ht⟩ := hasCycleVisit_circ_append (mappingAdj dm)
        F s0.name stm
      rw [if_neg hm, ht]
      intro hcontra
      exact hne (List.append_eq_nil.1 hcontra).1
  · have hm : s0.name ∉ stm.visited := hs0name ▸ hva
    rw [if_neg hm]
    apply detect_fold_circ_ne
    have htrue := hasCycleVisit_reach (mappingAdj dm) (cycleUniv steps dm) hadj
      F s0.name stm ((a :: l) ++ [a]) a hm
      (hs0name ▸ hauniv) (hbud stm.visited) hg hch
      (by simp [hs0name]) (List.getLast?_concat _) (by simp)
      (by rw [hs0name]; exact List.mem_cons_self _ _)
    exact hasCycleVisit_true_circ (mappingAdj dm) F s0.name stm htrue

/-- C1: for every chain whose dataMapping contains a cycle of length at least 2
among step names (a nonempty cycle `a :: l` of distinct step names whose
consecutive mapping edges close back to `a`), `validateChain` reports at least
one circular-dependency entry in its errors list, regardless of which step
carries `order == 0` and regardless of the step from which the DFS first
reaches the cycle. -/
theorem c1_validateChain_reports_cycle
    (resOk : StepType → String → Option String → Bool)
    (st : AdapterState) (chainId : String) (version : Option String)
    (chain : Chain) (a : String) (l : List String)
    (hconn : st.connected = true)
    (hfound : lookupChain st.chains chainId = some chain)
    (hl : l ≠ []) (hnd : (a :: l).Nodup)
    (hmem : ∀ x ∈ a :: l, x ∈ chain.steps.map (fun s => s.name))
    (hch : List.Chain' (fun x y => y ∈ mappingAdj chain.dataMapping x)
      ((a :: l) ++ [a])) :
    ∃ t, ("Circular dependencies detected: " ++ t) ∈
      (chainReport resOk st chainId version).errors := by
  have hcirc : detectCircularDependencies chain.steps chain.dataMapping ≠ [] :=
    detectCircularDependencies_complete chain.steps chain.dataMapping a l
      hl hnd hmem hch
  have hlen : 0 < (detectCircularDependencies chain.steps chain.dataMapping).length :=
    List.length_pos.2 hcirc
  have hga : adapterGetChain st chainId version = .ok chain := by
    simp [adapterGetChain, hconn, hfound]
  have hav : adapterValidateChain resOk st chainId version =
      .ok { valid := (resourceErrors resOk chain.steps).isEmpty
            errors := resourceErrors resOk chain.steps } := by
    simp [adapterValidateChain, hconn, hga]
  refine ⟨joinComma (detectCircularDependencies chain.steps chain.dataMapping), ?_⟩
  simp only [chainReport, hga, hav]
  simp only [if_pos hlen]
  apply List.mem_append_left
  apply List.mem_append_right
  simp

/-- Witness for C1: a stored two-step chain whose mapping is the cycle
a → b → a makes `validateChain` report a circular-dependency error. -/
theorem c1_validateChain_reports_cycle_witness :
    ∃ t, ("Circular dependencies detected: " ++ t) ∈
      (chainReport (fun _ _ _ => true)
        { connected := true
          chains := [("c1",
            { id := "c1", name := "ch",
              steps := [{ id := "idA", name := "a", type := StepType.prompt,
                          resourceId := "p1", order := 0 },
                        { id := "idB", name := "b", type := StepType.prompt,
                          resourceId := "p2", order := 1 }],
              executionOrder := ExecutionOrder.sequential,
              dataMapping := [⟨"a", "b", []⟩, ⟨"b", "a", []⟩],
              version := "1.0.0" })] }
        "c1" none).errors :=
  c1_validateChain_reports_cycle (fun _ _ _ => true)
    { connected := true
      chains := [("c1",
        { id := "c1", name := "ch",
          steps := [{ id := "idA", name := "a", type := StepType.prompt,
                      resourceId := "p1", order := 0 },
                    { id := "idB", name := "b", type := StepType.prompt,
                      resourceId := "p2", order := 1 }],
          executionOrder := ExecutionOrder.sequential,
          dataMapping := [⟨"a", "b", []⟩, ⟨"b", "a", []⟩],
          version := "1.0.0" })] }
    "c1" none
    { id := "c1", name := "ch",
      steps := [{ id := "idA", name := "a", type := StepType.prompt,
                  resourceId := "p1", order := 0 },
                { id := "idB", name := "b", type := StepType.prompt,
                  resourceId := "p2", order := 1 }],
      executionOrder := ExecutionOrder.sequential,
      dataMapping := [⟨"a", "b", []⟩, ⟨"b", "a", []⟩],
      version := "1.0.0" }
    "a" ["b"] rfl rfl (by decide) (by decide) (by decide)
    (List.chain'_cons.2 ⟨by decide, List.chain'_cons.2
      ⟨by decide, List.chain'_singleton _⟩⟩)

/-- C5: `validateChain` returns `{ valid, errors, warnings }` with
`valid == (errors.length == 0)` (so warnings never influence `valid`), and it
never throws for domain-expected conditions — for every non-empty chain id the
result is a report, whatever the adapter state holds; only the missing-id usage
error throws. -/
theorem c5_validateChain_shape
    (resOk : StepType → String → Option String → Bool)
    (st : AdapterState) (chainId : String) (version : Option String) :
    (chainId = "" →
      mgrValidateChain resOk st chainId version = .error "Chain ID is required") ∧
    (chainId ≠ "" →
      mgrValidateChain resOk st chainId version =
        .ok (chainReport resOk st chainId version) ∧
      ((chainReport resOk st chainId version).valid = true ↔
        (chainReport resOk st chainId version).errors = [])) := by
  constructor
  · intro h
    simp [mgrValidateChain, h]
  · intro h
    refine ⟨by simp [mgrValidateChain, h], ?_⟩
    cases hga : adapterGetChain st chainId version with
    | error e => simp [chainReport, hga]
    | ok chain =>
      cases hav : adapterValidateChain resOk st chainId version with
      | error e => simp [chainReport, hga, hav]
      | ok av => simp [chainReport, hga, hav, List.isEmpty_iff]

/-- Witness for C5: on a concrete state and a non-empty chain id,
`validateChain` returns a report whose `valid` is exactly the emptiness of
`errors`. -/
theorem c5_validateChain_shape_witness :
    mgrValidateChain (fun _ _ _ => true) ⟨true, []⟩ "x" none =
      .ok (chainReport (fun _ _ _ => true) ⟨true, []⟩ "x" none) ∧
    ((chainReport (fun _ _ _ => true) ⟨true, []⟩ "x" none).valid = true ↔
      (chainReport (fun _ _ _ => true) ⟨true, []⟩ "x" none).errors = []) :=
  (c5_validateChain_shape (fun _ _ _ => true) ⟨true, []⟩ "x" none).2 (by decide)

/-- C4: whenever the Joi schema passes and the adapter validation yields
`valid == false`, the manager's `executeChain` aborts with an error carrying
the validation errors, before the adapter's execute is reached (so no step
results are produced) and with the state returned unchanged. -/
theorem c4_executeChain_aborts_on_invalid
    (joiErr : ChainExecutionRequest → Option String)
    (resOk : StepType → String → Option String → Bool)
    (uuid : Nat → String) (rand : Nat → Nat) (elapsed : Nat)
    (st : AdapterState) (request : ChainExecutionRequest)
    (v : AdapterValidation)
    (hjoi : joiErr request = none)
    (hval : adapterValidateChain resOk st request.chainId request.version = .ok v)
    (hinv : v.valid = false) :
    mgrExecuteChain joiErr resOk uuid rand elapsed st request =
      (.error ("Chain validation failed: " ++ joinComma v.errors), st) := by
  simp [mgrExecuteChain, hjoi, hval, hinv]

/-- Witness for C4: a stored one-step chain whose resource probe fails makes
`executeChain` abort with the validation error, state unchanged. -/
theorem c4_executeChain_aborts_on_invalid_witness :
    mgrExecuteChain (fun _ => none) (fun _ _ _ => false)
      (fun n => "u" ++ toString n) (fun _ => 1) 3
      { connected := true
        chains := [("c4",
          { id := "c4", name := "ch",
            steps := [{ id := "idA", name := "s1", type := StepType.prompt,
                        resourceId := "p1", order := 0 }],
            executionOrder := ExecutionOrder.sequential,
            dataMapping := [], version := "1.0.0" })] }
      { chainId := "c4" } =
      (.error ("Chain validation failed: " ++
        joinComma ["Step 's1' references non-existent prompt: p1"]),
       { connected := true
         chains := [("c4",
           { id := "c4", name := "ch",
             steps := [{ id := "idA", name := "s1", type := StepType.prompt,
                         resourceId := "p1", order := 0 }],
             executionOrder := ExecutionOrder.sequential,
             dataMapping := [], version := "1.0.0" })] }) :=
  c4_executeChain_aborts_on_invalid (fun _ => none) (fun _ _ _ => false)
    (fun n => "u" ++ toString n) (fun _ => 1) 3
    { connected := true
      chains := [("c4",
        { id := "c4", name := "ch",
          steps := [{ id := "idA", name := "s1", type := StepType.prompt,
                      resourceId := "p1", order := 0 }],
          executionOrder := ExecutionOrder.sequential,
          dataMapping := [], version := "1.0.0" })] }
    { chainId := "c4" }
    { valid := false, errors := ["Step 's1' references non-existent prompt: p1"] }
    rfl rfl rfl

/-- C2 (code-bug evidence): on a three-step sequential chain in which step 3
depends on step 2 through the mapping graph, the adapter's `executeChain`
reports every step `success` and the chain `success` — the simplified source
never invokes a step runner, so no step can be `error` and no dependent step
can be `skipped`. -/
theorem c2_executeChain_marks_all_steps_success :
    (adapterExecuteChain (fun n => "u" ++ toString n) (fun _ => 1) 3
      { connected := true
        chains := [("c2",
          { id := "c2", name := "ch",
            steps := [{ id := "id1", name := "s1", type := StepType.prompt,
                        resourceId := "p1", order := 0 },
                      { id := "id2", name := "s2", type := StepType.prompt,
                        resourceId := "p2", order := 1 },
                      { id := "id3", name := "s3", type := StepType.prompt,
                        resourceId := "p3", order := 2 }],
            executionOrder := ExecutionOrder.sequential,
            dataMapping := [⟨"s1", "s2", []⟩, ⟨"s2", "s3", []⟩],
            version := "1.0.0" })] }
      { chainId := "c2" }).map
        (fun r => (r.stepResults.map (fun s => s.status), r.status)) =
    .ok ([StepStatus.success, StepStatus.success, StepStatus.success],
         ChainStatus.success) := rfl


theorem find?_map_set (k : String) (v : Chain) :
    ∀ m : List (String × Chain), m.any (fun p => p.1 = k) = true →
      (m.map (fun p => if p.1 = k then (k, v) else p)).find?
        (fun p => p.1 = k) = some (k, v) := by
  intro m
  induction m with
  | nil => intro h; simp at h
  | cons p rest ih =>
    intro h
    by_cases hp : p.1 = k
    · simp [List.find?_cons, hp]
    · have hrest : rest.any (fun q => q.1 = k) = true := by
        simpa [List.any_cons, hp] using h
      simpa [List.find?_cons, hp] using ih hrest

theorem lookupChain_setChain_self (k : String) (v : Chain)
    (m : List (String × Chain)) :
    lookupChain (setChain m k v) k = some v := by
  by_cases h : m.any (fun p => p.1 = k)
  · simp only [lookupChain, setChain, if_pos h]
    rw [find?_map_set k v m h]
    rfl
  · simp only [lookupChain, setChain, if_neg h]
    have hnone : m.find? (fun p => p.1 = k) = none := by
      rw [List.find?_eq_none]
      intro x hx
      simp only [List.any_eq_true] at h
      intro hc
      exact h ⟨x, hx, by simpa using hc⟩
    rw [List.find?_append, hnone]
    simp

theorem materialized_orders (uuid : Nat → String) (off : Nat)
    (l : List ChainStepRequest) :
    (l.enum.map (fun p => materializeStep p.2 (uuid (p.1 + off)) p.1)).map
      (fun s => s.order) = (List.range l.length).map Int.ofNat := by
  apply List.ext_getElem?
  intro i
  by_cases hi : i < l.length
  · have hsome : l[i]? = some l[i] := List.getElem?_eq_getElem hi
    simp [List.getElem?_map, List.getElem?_enum, List.getElem?_range, hsome,
      hi, materializeStep]
  · have hnone : l[i]? = none := List.getElem?_eq_none (Nat.le_of_not_lt hi)
    have hrnone : (List.range l.length)[i]? = none :=
      List.getElem?_eq_none (by simpa using Nat.le_of_not_lt hi)
    simp [List.getElem?_map, List.getElem?_enum, hnone, hrnone]

/-- C10: `createChain` (and `updateChain` when it carries a steps list) stores
each step with a fresh generated id and `order` reassigned to the step's list
position: the stored chain — found in the store under its id right after the
call — has order values exactly `0, 1, ..., n-1` in list position, regardless
of the order values the caller supplied. -/
theorem c10_stored_steps_orders_are_positions :
    (∀ (uuid : Nat → String) (now : Nat) (st : AdapterState)
       (req : CreateChainRequest) (c : Chain) (st2 : AdapterState),
      adapterCreateChain uuid now st req = .ok (c, st2) →
      lookupChain st2.chains c.id = some c ∧
      c.steps.map (fun s => s.order) = (List.range req.steps.length).map Int.ofNat ∧
      ∀ i r0, req.steps[i]? = some r0 →
        c.steps[i]? = some (materializeStep r0 (uuid (i + 1)) i)) ∧
    (∀ (uuid : Nat → String) (now : Nat) (st : AdapterState) (id : String)
       (req : UpdateChainRequest) (ss : List ChainStepRequest)
       (c : Chain) (st2 : AdapterState),
      req.steps = some ss →
      adapterUpdateChain uuid now st id req = .ok (c, st2) →
      lookupChain st2.chains id = some c ∧
      c.steps.map (fun s => s.order) = (List.range ss.length).map Int.ofNat ∧
      ∀ i r0, ss[i]? = some r0 →
        c.steps[i]? = some (materializeStep r0 (uuid i) i)) := by
  constructor
  · intro uuid now st req c st2 h
    by_cases hc : st.connected
    · rw [adapterCreateChain, if_neg (by simpa using hc)] at h
      simp only [Except.ok.injEq, Prod.mk.injEq] at h
      obtain ⟨hcEq, hstEq⟩ := h
      subst hcEq
      subst hstEq
      refine ⟨lookupChain_setChain_self _ _ _, ?_, ?_⟩
      · exact materialized_orders uuid 1 req.steps
      · intro i r0 hi
        simp [List.getElem?_map, List.getElem?_enum, hi]
    · simp [adapterCreateChain, hc] at h
  · intro uuid now st id req ss c st2 hss h
    by_cases hc : st.connected
    · rw [adapterUpdateChain, if_neg (by simpa using hc)] at h
      cases hget : adapterGetChain st id none with
      | error e => rw [hget] at h; simp at h
      | ok existing =>
        rw [hget, hss] at h
        simp only [Except.ok.injEq, Prod.mk.injEq] at h
        obtain ⟨hcEq, hstEq⟩ := h
        subst hcEq
        subst hstEq
        refine ⟨lookupChain_setChain_self _ _ _, ?_, ?_⟩
        · exact materialized_orders uuid 0 ss
        · intro i r0 hi
          simp [List.getElem?_map, List.getElem?_enum, hi]
    · simp [adapterUpdateChain, hc] at h

/-- Witness for C10: creating a chain whose two request steps carry orders 5
and 3 stores them under the fresh chain id with orders 0 and 1. -/
theorem c10_stored_steps_orders_are_positions_witness :
    lookupChain
      [("u0",
        { id := "u0", name := "ch", steps :=
            [{ id := "u1", name := "a", type := StepType.prompt,
               resourceId := "p1", order := 0 },
             { id := "u2", name := "b", type := StepType.prompt,
               resourceId := "p2", order := 1 }],
          executionOrder := ExecutionOrder.sequential,
          createdAt := 7, updatedAt := 7, version := "1.0.0" })]
      "u0" =
      some { id := "u0", name := "ch", steps :=
              [{ id := "u1", name := "a", type := StepType.prompt,
                 resourceId := "p1", order := 0 },
               { id := "u2", name := "b", type := StepType.prompt,
                 resourceId := "p2", order := 1 }],
             executionOrder := ExecutionOrder.sequential,
             createdAt := 7, updatedAt := 7, version := "1.0.0" } ∧
    ([{ id := "u1", name := "a", type := StepType.prompt,
        resourceId := "p1", order := 0 },
      { id := "u2", name := "b", type := StepType.prompt,
        resourceId := "p2", order := 1 }] : List ChainStep).map
      (fun s => s.order) = (List.range 2).map Int.ofNat := by
  have h := c10_stored_steps_orders_are_positions.1
    (fun n => "u" ++ toString n) 7 ⟨true, []⟩
    { name := "ch"
      steps := [{ name := "a", type := StepType.prompt, resourceId := "p1",
                  order := some 5 },
                { name := "b", type := StepType.prompt, resourceId := "p2",
                  order := some 3 }]
      executionOrder := ExecutionOrder.sequential }
    { id := "u0", name := "ch", steps :=
        [{ id := "u1", name := "a", type := StepType.prompt,
           resourceId := "p1", order := 0 },
         { id := "u2", name := "b", type := StepType.prompt,
           resourceId := "p2", order := 1 }],
      executionOrder := ExecutionOrder.sequential,
      createdAt := 7, updatedAt := 7, version := "1.0.0" }
    ⟨true,
      [("u0",
        { id := "u0", name := "ch", steps :=
            [{ id := "u1", name := "a", type := StepType.prompt,
               resourceId := "p1", order := 0 },
             { id := "u2", name := "b", type := StepType.prompt,
               resourceId := "p2", order := 1 }],
          executionOrder := ExecutionOrder.sequential,
          createdAt := 7, updatedAt := 7, version := "1.0.0" })]⟩
    rfl
  exact ⟨h.1, h.2.1⟩

/-- C9: every `updateChain` call that fails (schema, invalid steps, invalid
data mapping, dangling resource reference, or even a missing chain) throws
before the adapter's update is invoked: whenever the result is an error the
returned store state is exactly the input state, so no chain was persisted. -/
theorem c9_updateChain_rejected_leaves_store_unchanged
    (joiErr : UpdateChainRequest → Option String)
    (resOk : StepType → String → Option String → Bool)
    (uuid : Nat → String) (now : Nat) (st : AdapterState)
    (id : String) (request : UpdateChainRequest) (e : String)
    (h : (mgrUpdateChain joiErr resOk uuid now st id request).1 = .error e) :
    (mgrUpdateChain joiErr resOk uuid now st id request).2 = st := by
  by_cases hid : id = ""
  · simp [mgrUpdateChain, hid]
  · cases hjoi : joiErr request with
    | some m => simp [mgrUpdateChain, hid, hjoi]
    | none =>
      cases hget : adapterGetChain st id none with
      | error e2 => simp [mgrUpdateChain, hid, hjoi, hget]
      | ok ex =>
        cases hsc : updateStepsCheck resOk request with
        | error e3 => simp [mgrUpdateChain, hid, hjoi, hget, hsc]
        | ok u =>
          cases hupd : adapterUpdateChain uuid now st id request with
          | error e4 => simp [mgrUpdateChain, hid, hjoi, hget, hsc, hupd]
          | ok p =>
            simp [mgrUpdateChain, hid, hjoi, hget, hsc, hupd] at h

/-- Witness for C9: an update carrying duplicate step names is rejected and the
stored chain is untouched. -/
theorem c9_updateChain_rejected_leaves_store_unchanged_witness :
    (mgrUpdateChain (fun _ => none) (fun _ _ _ => true)
      (fun n => "u" ++ toString n) 9
      { connected := true
        chains := [("c9",
          { id := "c9", name := "ch",
            steps := [{ id := "idA", name := "a", type := StepType.prompt,
                        resourceId := "p1", order := 0 }],
            executionOrder := ExecutionOrder.sequential,
            version := "1.0.0" })] }
      "c9"
      { steps := some [⟨"a", StepType.prompt, "p1", none, [], [], none, some 0⟩,
                       ⟨"a", StepType.prompt, "p2", none, [], [], none, some 1⟩] }).2 =
      { connected := true
        chains := [("c9",
          { id := "c9", name := "ch",
            steps := [{ id := "idA", name := "a", type := StepType.prompt,
                        resourceId := "p1", order := 0 }],
            executionOrder := ExecutionOrder.sequential,
            version := "1.0.0" })] } :=
  c9_updateChain_rejected_leaves_store_unchanged (fun _ => none)
    (fun _ _ _ => true) (fun n => "u" ++ toString n) 9
    { connected := true
      chains := [("c9",
        { id := "c9", name := "ch",
          steps := [{ id := "idA", name := "a", type := StepType.prompt,
                      resourceId := "p1", order := 0 }],
          executionOrder := ExecutionOrder.sequential,
          version := "1.0.0" })] }
    "c9"
    { steps := some [⟨"a", StepType.prompt, "p1", none, [], [], none, some 0⟩,
                     ⟨"a", StepType.prompt, "p2", none, [], [], none, some 1⟩] }
    "Chain step validation failed: Duplicate step name: a" rfl

theorem adjacentGapWarnings_mem :
    ∀ (l : List ChainStep) (i : Nat) (a b : ChainStep),
      l[i]? = some a → l[i + 1]? = some b → 1 < b.order - a.order →
      gapWarning a b ∈ adjacentGapWarnings l := by
  intro l
  induction l with
  | nil => intro i a b ha _ _; simp at ha
  | cons x rest ih =>
    intro i a b ha hb hgap
    cases rest with
    | nil =>
      cases i with
      | zero => simp at hb
      | succ j => simp at ha
    | cons y rr =>
      cases i with
      | zero =>
        have hax : a = x := by simpa using ha.symm
        have hby : b = y := by simpa using hb.symm
        subst hax
        subst hby
        simp only [adjacentGapWarnings, if_pos hgap]
        exact List.mem_append_left _ (List.mem_singleton_self _)
      | succ j =>
        have ha' : (y :: rr)[j]? = some a := by simpa using ha
        have hb' : (y :: rr)[j + 1]? = some b := by simpa using hb
        have hmem := ih j a b ha' hb' hgap
        simp only [adjacentGapWarnings]
        exact List.mem_append_right _ hmem

/-- C8: for a sequential chain whose sorted steps contain an adjacent pair with
an order gap greater than 1, `validateChain` includes a warning naming the two
step names on either side of the gap, and the gap never blocks validation —
`valid` is still true whenever the errors list is empty. -/
theorem c8_order_gap_is_warning_only
    (resOk : StepType → String → Option String → Bool)
    (st : AdapterState) (chainId : String) (version : Option String)
    (chain : Chain) (i : Nat) (a b : ChainStep)
    (hconn : st.connected = true)
    (hfound : lookupChain st.chains chainId = some chain)
    (hseq : chain.executionOrder = ExecutionOrder.sequential)
    (ha : (sortByOrder chain.steps)[i]? = some a)
    (hb : (sortByOrder chain.steps)[i + 1]? = some b)
    (hgap : 1 < b.order - a.order) :
    gapWarning a b ∈ (chainReport resOk st chainId version).warnings ∧
    ((chainReport resOk st chainId version).errors = [] →
      (chainReport resOk st chainId version).valid = true) := by
  have hga : adapterGetChain st chainId version = .ok chain := by
    simp [adapterGetChain, hconn, hfound]
  have hav : adapterValidateChain resOk st chainId version =
      .ok { valid := (resourceErrors resOk chain.steps).isEmpty
            errors := resourceErrors resOk chain.steps } := by
    simp [adapterValidateChain, hconn, hga]
  constructor
  · simp only [chainReport, hga, hav, hseq, if_pos rfl]
    apply List.mem_append_right
    simpa [validateSequentialOrder] using
      adjacentGapWarnings_mem (sortByOrder chain.steps) i a b ha hb hgap
  · intro h
    simp only [chainReport, hga, hav] at h ⊢
    simpa [List.isEmpty_iff] using h

/-- Witness for C8: a sequential chain with orders 0, 2, 3 validates with
`valid = true` (no errors) and carries the gap warning between the two steps
around the missing order 1. -/
theorem c8_order_gap_is_warning_only_witness :
    gapWarning
      { id := "id1", name := "s1", type := StepType.prompt,
        resourceId := "p1", order := 0 }
      { id := "id2", name := "s2", type := StepType.prompt,
        resourceId := "p2", order := 2 } ∈
      (chainReport (fun _ _ _ => true)
        { connected := true
          chains := [("c8",
            { id := "c8", name := "ch",
              steps := [{ id := "id1", name := "s1", type := StepType.prompt,
                          resourceId := "p1", order := 0 },
                        { id := "id2", name := "s2", type := StepType.prompt,
                          resourceId := "p2", order := 2 },
                        { id := "id3", name := "s3", type := StepType.prompt,
                          resourceId := "p3", order := 3 }],
              executionOrder := ExecutionOrder.sequential,
              dataMapping := [⟨"s1", "s2", []⟩, ⟨"s2", "s3", []⟩],
              version := "1.0.0" })] }
        "c8" none).warnings ∧
    (chainReport (fun _ _ _ => true)
      { connected := true
        chains := [("c8",
          { id := "c8", name := "ch",
            steps := [{ id := "id1", name := "s1", type := StepType.prompt,
                        resourceId := "p1", order := 0 },
                      { id := "id2", name := "s2", type := StepType.prompt,
                        resourceId := "p2", order := 2 },
                      { id := "id3", name := "s3", type := StepType.prompt,
                        resourceId := "p3", order := 3 }],
            executionOrder := ExecutionOrder.sequential,
            dataMapping := [⟨"s1", "s2", []⟩, ⟨"s2", "s3", []⟩],
            version := "1.0.0" })] }
      "c8" none).valid = true := by
  refine ⟨(c8_order_gap_is_warning_only (fun _ _ _ => true)
    { connected := true
      chains := [("c8",
        { id := "c8", name := "ch",
          steps := [{ id := "id1", name := "s1", type := StepType.prompt,
                      resourceId := "p1", order := 0 },
                    { id := "id2", name := "s2", type := StepType.prompt,
                      resourceId := "p2", order := 2 },
                    { id := "id3", name := "s3", type := StepType.prompt,
                      resourceId := "p3", order := 3 }],
          executionOrder := ExecutionOrder.sequential,
          dataMapping := [⟨"s1", "s2", []⟩, ⟨"s2", "s3", []⟩],
          version := "1.0.0" })] }
    "c8" none
    { id := "c8", name := "ch",
      steps := [{ id := "id1", name := "s1", type := StepType.prompt,
                  resourceId := "p1", order := 0 },
                { id := "id2", name := "s2", type := StepType.prompt,
                  resourceId := "p2", order := 2 },
                { id := "id3", name := "s3", type := StepType.prompt,
                  resourceId := "p3", order := 3 }],
      executionOrder := ExecutionOrder.sequential,
      dataMapping := [⟨"s1", "s2", []⟩, ⟨"s2", "s3", []⟩],
      version := "1.0.0" }
    0
    { id := "id1", name := "s1", type := StepType.prompt,
      resourceId := "p1", order := 0 }
    { id := "id2", name := "s2", type := StepType.prompt,
      resourceId := "p2", order := 2 }
    rfl rfl rfl (by decide) (by decide) (by decide)).1, ?_⟩
  decide

/-- C6 (amended): reachability is *not* skipped when no step has `order == 0`.
For every stored chain with at least two steps and no step of order 0, the
reachable set stays empty, so `findUnreachableSteps` returns every step name
and `validateChain` emits a single warning listing them all — whatever the
`executionOrder` is.  Only chains with at most one step skip the analysis. -/
theorem c6_no_entry_marks_every_step_unreachable
    (resOk : StepType → String → Option String → Bool)
    (st : AdapterState) (chainId : String) (version : Option String)
    (chain : Chain)
    (hconn : st.connected = true)
    (hfound : lookupChain st.chains chainId = some chain)
    (hlen : 2 ≤ chain.steps.length)
    (hord : ∀ s ∈ chain.steps, s.order ≠ 0) :
    findUnreachableSteps chain.steps chain.dataMapping =
      chain.steps.map (fun s => s.name) ∧
    ("Potentially unreachable steps: " ++
      joinComma (chain.steps.map (fun s => s.name))) ∈
      (chainReport resOk st chainId version).warnings := by
  have hfind : chain.steps.find? (fun s => s.order = 0) = none := by
    rw [List.find?_eq_none]
    intro s hs
    simpa using hord s hs
  have hentry : entryStepName chain.steps = none := by
    simp [entryStepName, hfind]
  have hfu : findUnreachableSteps chain.steps chain.dataMapping =
      chain.steps.map (fun s => s.name) := by
    rw [findUnreachableSteps, if_neg (by omega)]
    simp [hentry]
  refine ⟨hfu, ?_⟩
  have hga : adapterGetChain st chainId version = .ok chain := by
    simp [adapterGetChain, hconn, hfound]
  have hav : adapterValidateChain resOk st chainId version =
      .ok { valid := (resourceErrors resOk chain.steps).isEmpty
            errors := resourceErrors resOk chain.steps } := by
    simp [adapterValidateChain, hconn, hga]
  have hpos : 0 < (findUnreachableSteps chain.steps chain.dataMapping).length := by
    rw [hfu, List.length_map]
    omega
  simp only [chainReport, hga, hav, if_pos hpos]
  apply List.mem_append_left
  rw [hfu]
  simp

/-- Witness for the C6 amended theorem: a parallel two-step chain with orders
1 and 2 gets the warning naming both steps. -/
theorem c6_no_entry_marks_every_step_unreachable_witness :
    findUnreachableSteps
      [{ id := "idX", name := "x", type := StepType.prompt,
         resourceId := "p1", order := 1 },
       { id := "idY", name := "y", type := StepType.prompt,
         resourceId := "p2", order := 2 }] [⟨"x", "y", []⟩] =
      ["x", "y"] ∧
    ("Potentially unreachable steps: " ++ joinComma ["x", "y"]) ∈
      (chainReport (fun _ _ _ => true)
        { connected := true
          chains := [("c6",
            { id := "c6", name := "ch",
              steps := [{ id := "idX", name := "x", type := StepType.prompt,
                          resourceId := "p1", order := 1 },
                        { id := "idY", name := "y", type := StepType.prompt,
                          resourceId := "p2", order := 2 }],
              executionOrder := ExecutionOrder.parallel,
              dataMapping := [⟨"x", "y", []⟩],
              version := "1.0.0" })] }
        "c6" none).warnings :=
  c6_no_entry_marks_every_step_unreachable (fun _ _ _ => true)
    { connected := true
      chains := [("c6",
        { id := "c6", name := "ch",
          steps := [{ id := "idX", name := "x", type := StepType.prompt,
                      resourceId := "p1", order := 1 },
                    { id := "idY", name := "y", type := StepType.prompt,
                      resourceId := "p2", order := 2 }],
          executionOrder := ExecutionOrder.parallel,
          dataMapping := [⟨"x", "y", []⟩],
          version := "1.0.0" })] }
    "c6" none
    { id := "c6", name := "ch",
      steps := [{ id := "idX", name := "x", type := StepType.prompt,
                  resourceId := "p1", order := 1 },
                { id := "idY", name := "y", type := StepType.prompt,
                  resourceId := "p2", order := 2 }],
      executionOrder := ExecutionOrder.parallel,
      dataMapping := [⟨"x", "y", []⟩],
      version := "1.0.0" }
    rfl rfl (by decide) (by decide)

/-- Counterexample to C6 as stated: this chain has no step with `order == 0`
and is not sequential, yet `validateChain` does **not** skip reachability — it
emits a 'Potentially unreachable steps' warning naming every step. -/
theorem c6_counterexample_reachability_not_skipped :
    (∀ s ∈ ([{ id := "idX", name := "x", type := StepType.prompt,
               resourceId := "p1", order := 1 },
             { id := "idY", name := "y", type := StepType.prompt,
               resourceId := "p2", order := 2 }] : List ChainStep),
       s.order ≠ (0 : Int)) ∧
    ExecutionOrder.parallel ≠ ExecutionOrder.sequential ∧
    "Potentially unreachable steps: x, y" ∈
      (chainReport (fun _ _ _ => true)
        { connected := true
          chains := [("c6",
            { id := "c6", name := "ch",
              steps := [{ id := "idX", name := "x", type := StepType.prompt,
                          resourceId := "p1", order := 1 },
                        { id := "idY", name := "y", type := StepType.prompt,
                          resourceId := "p2", order := 2 }],
              executionOrder := ExecutionOrder.parallel,
              dataMapping := [⟨"x", "y", []⟩],
              version := "1.0.0" })] }
        "c6" none).warnings := by
  refine ⟨by decide, by decide, ?_⟩
  decide

/-- C7 (amended): a self-loop mapping edge is always reported by
`validateDataMapping`, and it is rejected — with the store unchanged — by
`createChain`, and by `updateChain` whenever the request also supplies a steps
list.  (An update supplying only `dataMapping` bypasses this check: see the
counterexample.) -/
theorem c7_self_loop_rejected_at_create_and_steps_update :
    (∀ (dm : List DataMapping) (steps : List ChainStepRequest) (m : DataMapping),
      m ∈ dm → m.fromStep = m.toStep →
      ("Data mapping cannot map step to itself: " ++ m.fromStep) ∈
        (validateDataMapping dm steps).errors) ∧
    (∀ (joiErr : CreateChainRequest → Option String)
       (resOk : StepType → String → Option String → Bool)
       (uuid : Nat → String) (now : Nat) (st : AdapterState)
       (request : CreateChainRequest) (dmv : List DataMapping) (m : DataMapping),
      joiErr request = none →
      (validateChainSteps request.steps).valid = true →
      request.dataMapping = some dmv → m ∈ dmv → m.fromStep = m.toStep →
      ∃ e, mgrCreateChain joiErr resOk uuid now st request = (.error e, st)) ∧
    (∀ (joiErr : UpdateChainRequest → Option String)
       (resOk : StepType → String → Option String → Bool)
       (uuid : Nat → String) (now : Nat) (st : AdapterState) (id : String)
       (request : UpdateChainRequest) (ss : List ChainStepRequest)
       (dmv : List DataMapping) (m : DataMapping),
      id ≠ "" → joiErr request = none →
      request.steps = some ss →
      (validateChainSteps ss).valid = true →
      request.dataMapping = some dmv → m ∈ dmv → m.fromStep = m.toStep →
      ∃ e, mgrUpdateChain joiErr resOk uuid now st id request = (.error e, st)) := by
  have hreport : ∀ (dm : List DataMapping) (steps : List ChainStepRequest)
      (m : DataMapping), m ∈ dm → m.fromStep = m.toStep →
      ("Data mapping cannot map step to itself: " ++ m.fromStep) ∈
        (validateDataMapping dm steps).errors := by
    intro dm steps m hm hself
    simp only [validateDataMapping]
    apply List.mem_flatMap.2
    refine ⟨m, hm, ?_⟩
    apply List.mem_append_right
    simp [hself]
  have hmc : ∀ (dmv : List DataMapping) (steps : List ChainStepRequest)
      (m : DataMapping), m ∈ dmv → m.fromStep = m.toStep →
      ∃ e, createMappingCheck (some dmv) steps = .error e := by
    intro dmv steps m hm hself
    have hne : (validateDataMapping dmv steps).errors ≠ [] :=
      List.ne_nil_of_mem (hreport dmv steps m hm hself)
    have hval : (validateDataMapping dmv steps).valid = false := by
      simp only [validateDataMapping] at hne ⊢
      simpa [List.isEmpty_iff] using hne
    refine ⟨"Data mapping validation failed: " ++
      joinComma (validateDataMapping dmv steps).errors, ?_⟩
    simp [createMappingCheck, hval]
  refine ⟨hreport, ?_, ?_⟩
  · intro joiErr resOk uuid now st request dmv m hjoi hsv hdm hm hself
    obtain ⟨e, he⟩ := hmc dmv request.steps m hm hself
    refine ⟨e, ?_⟩
    simp [mgrCreateChain, hjoi, hsv, hdm, he]
  · intro joiErr resOk uuid now st id request ss dmv m hid hjoi hss hsv hdm hm hself
    obtain ⟨e, he⟩ := hmc dmv ss m hm hself
    have hsc : updateStepsCheck resOk request = .error e := by
      rw [updateStepsCheck, hss]
      simp only [hsv, not_true]
      rw [if_neg (by simp), hdm, he]
    cases hget : adapterGetChain st id none with
    | error e2 =>
      exact ⟨e2, by simp [mgrUpdateChain, hid, hjoi, hget]⟩
    | ok ex =>
      exact ⟨e, by simp [mgrUpdateChain, hid, hjoi, hget, hsc]⟩

/-- Witness for the C7 amended theorem: a create request mapping step a to
itself is rejected with the store unchanged. -/
theorem c7_self_loop_rejected_witness :
    ("Data mapping cannot map step to itself: a") ∈
      (validateDataMapping [⟨"a", "a", []⟩]
        [⟨"a", StepType.prompt, "p1", none, [], [], none, some 0⟩]).errors ∧
    ∃ e, mgrCreateChain (fun _ => none) (fun _ _ _ => true)
      (fun n => "u" ++ toString n) 7 ⟨true, []⟩
      { name := "ch"
        steps := [⟨"a", StepType.prompt, "p1", none, [], [], none, some 0⟩]
        executionOrder := ExecutionOrder.sequential
        dataMapping := some [⟨"a", "a", []⟩] } = (.error e, ⟨true, []⟩) :=
  ⟨c7_self_loop_rejected_at_create_and_steps_update.1 [⟨"a", "a", []⟩]
    [⟨"a", StepType.prompt, "p1", none, [], [], none, some 0⟩]
    ⟨"a", "a", []⟩ (List.mem_singleton_self _) rfl,
   c7_self_loop_rejected_at_create_and_steps_update.2.1 (fun _ => none)
    (fun _ _ _ => true) (fun n => "u" ++ toString n) 7 ⟨true, []⟩
    { name := "ch"
      steps := [⟨"a", StepType.prompt, "p1", none, [], [], none, some 0⟩]
      executionOrder := ExecutionOrder.sequential
      dataMapping := some [⟨"a", "a", []⟩] }
    [⟨"a", "a", []⟩] ⟨"a", "a", []⟩
    rfl (by decide) rfl (List.mem_singleton_self _) rfl⟩

/-- Counterexample to C7 as stated: an `updateChain` request that carries a
self-loop data mapping but no steps list is *not* rejected — the call succeeds
and the self-loop is silently persisted on the stored chain. -/
theorem c7_counterexample_update_without_steps_accepts_self_loop :
    (⟨"a", "a", []⟩ : DataMapping).fromStep = (⟨"a", "a", []⟩ : DataMapping).toStep ∧
    (mgrUpdateChain (fun _ => none) (fun _ _ _ => true)
      (fun n => "u" ++ toString n) 9
      { connected := true
        chains := [("c7",
          { id := "c7", name := "ch",
            steps := [{ id := "idA", name := "a", type := StepType.prompt,
                        resourceId := "p1", order := 0 }],
            executionOrder := ExecutionOrder.sequential,
            version := "1.0.0" })] }
      "c7" { dataMapping := some [⟨"a", "a", []⟩] }).1.isOk = true ∧
    ((lookupChain (mgrUpdateChain (fun _ => none) (fun _ _ _ => true)
      (fun n => "u" ++ toString n) 9
      { connected := true
        chains := [("c7",
          { id := "c7", name := "ch",
            steps := [{ id := "idA", name := "a", type := StepType.prompt,
                        resourceId := "p1", order := 0 }],
            executionOrder := ExecutionOrder.sequential,
            version := "1.0.0" })] }
      "c7" { dataMapping := some [⟨"a", "a", []⟩] }).2.chains "c7").map
        (fun c => c.dataMapping)) = some [⟨"a", "a", []⟩] := by
  refine ⟨rfl, ?_, ?_⟩
  · decide
  · decide

theorem initDepGraph_aux (x : String) :
    ∀ (steps : List ChainStep) (g0 : String → Option DepEntry),
      (steps.foldl (fun g s => setEntry g s.id ⟨[], []⟩) g0) x =
      if x ∈ steps.map (fun s => s.id) then some ⟨[], []⟩ else g0 x := by
  intro steps
  induction steps with
  | nil => intro g0; simp
  | cons s rest ih =>
    intro g0
    rw [List.foldl_cons, ih]
    by_cases hr : x ∈ rest.map (fun t => t.id)
    · simp [hr]
    · by_cases hx : x = s.id
      · simp [hr, hx, setEntry]
      · simp [hr, hx, setEntry]

theorem initDepGraph_eq (steps : List ChainStep) (x : String) :
    initDepGraph steps x =
      if x ∈ steps.map (fun s => s.id) then some ⟨[], []⟩ else none :=
  initDepGraph_aux x steps (fun _ => none)

theorem resolveStepId_eq_none (steps : List ChainStep) (x : String)
    (h : x ∉ steps.map (fun s => s.name)) :
    resolveStepId steps x = none := by
  have hfind : steps.find? (fun s => s.name = x) = none := by
    rw [List.find?_eq_none]
    intro s hs
    simp only [decide_eq_true_eq]
    intro hc
    exact h (List.mem_map.2 ⟨s, hs, hc⟩)
  simp [resolveStepId, hfind]

theorem resolveStepId_untouched (steps : List ChainStep) (x : String)
    (s : ChainStep) (hs : s ∈ steps)
    (hnd : (steps.map (fun t => t.id)).Nodup)
    (hx : x ≠ s.name) (fid : String)
    (hres : resolveStepId steps x = some fid) : fid ≠ s.id := by
  intro hEq
  rw [resolveStepId] at hres
  cases hfind : steps.find? (fun t => t.name = x) with
  | none => rw [hfind] at hres; simp at hres
  | some t =>
    rw [hfind] at hres
    have htx : t.name = x := by
      have := List.find?_some hfind
      simpa using this
    have htm : t ∈ steps := List.mem_of_find?_eq_some hfind
    by_cases hide : t.id = ""
    · simp [hide] at hres
    · simp only [hide, if_neg] at hres
      have hfid : fid = t.id := by
        by_cases h0 : t.id = ""
        · exact absurd h0 hide
        · simpa [h0] using hres.symm
      have hts : t = s := by
        have hinj := List.inj_on_of_nodup_map hnd
        exact hinj htm hs (by rw [← hfid, hEq])
      exact hx (by rw [← htx, hts])

theorem graph_iso_aux (steps : List ChainStep) (s : ChainStep)
    (hs : s ∈ steps) (hnd : (steps.map (fun t => t.id)).Nodup) :
    ∀ (dm : List DataMapping) (g : String → Option DepEntry),
      (∀ m ∈ dm, m.fromStep ≠ s.name ∧ m.toStep ≠ s.name) →
      g s.id = some ⟨[], []⟩ →
      (dm.foldl (addMappingEdge steps) g) s.id = some ⟨[], []⟩ := by
  intro dm
  induction dm with
  | nil => intro g _ hg; simpa using hg
  | cons m rest ih =>
    intro g hiso hg
    rw [List.foldl_cons]
    apply ih _ (fun m2 hm2 => hiso m2 (List.mem_cons_of_mem _ hm2))
    rw [addMappingEdge]
    cases hf : resolveStepId steps m.fromStep with
    | none => simpa using hg
    | some fid =>
      cases ht : resolveStepId steps m.toStep with
      | none => simpa using hg
      | some tid =>
        have hm := hiso m (List.mem_cons_self _ _)
        have hfne : fid ≠ s.id :=
          resolveStepId_untouched steps m.fromStep s hs hnd hm.1 fid hf
        have htne : tid ≠ s.id :=
          resolveStepId_untouched steps m.toStep s hs hnd hm.2 tid ht
        simp only [pushDependent, pushDependency]
        rw [if_neg (fun h => hfne h.symm), if_neg (fun h => htne h.symm)]
        exact hg

theorem buildDependencyGraph_isolated (steps : List ChainStep)
    (dm : List DataMapping) (s : ChainStep) (hs : s ∈ steps)
    (hnd : (steps.map (fun t => t.id)).Nodup)
    (hiso : ∀ m ∈ dm, m.fromStep ≠ s.name ∧ m.toStep ≠ s.name) :
    buildDependencyGraph steps dm s.id = some ⟨[], []⟩ := by
  rw [buildDependencyGraph]
  apply graph_iso_aux steps s hs hnd dm _ hiso
  rw [initDepGraph_eq]
  simp [List.mem_map.2 ⟨s, hs, rfl⟩]

/-- C3: `getChainExecutionPlan` returns exactly one plan entry per step, keyed
by step id with the step's name and order; a step touched by no mapping edge
gets empty dependency and dependent lists; and a mapping edge referencing a
step name absent from the step list is silently excluded from the dependency
graph (the fold treats it as a no-op, never an error). -/
theorem c3_execution_plan_shape :
    (∀ (st : AdapterState) (chainId : String) (version : Option String)
       (chain : Chain),
      adapterGetChain st chainId version = .ok chain →
      ∃ plan : ExecutionPlan,
        mgrGetChainExecutionPlan st chainId version = .ok plan ∧
        plan.executionOrder = chain.executionOrder ∧
        plan.steps.length = chain.steps.length ∧
        (∀ (i : Nat) (s : ChainStep), chain.steps[i]? = some s →
          ∃ ps : PlanStep, plan.steps[i]? = some ps ∧
          ps.stepId = s.id ∧ ps.stepName = s.name ∧ ps.order = s.order) ∧
        ((chain.steps.map (fun t => t.id)).Nodup →
          ∀ (i : Nat) (s : ChainStep), chain.steps[i]? = some s →
          (∀ m ∈ chain.dataMapping, m.fromStep ≠ s.name ∧ m.toStep ≠ s.name) →
          ∃ ps : PlanStep, plan.steps[i]? = some ps ∧
            ps.dependencies = [] ∧ ps.dependents = [])) ∧
    (∀ (steps : List ChainStep) (dm1 : List DataMapping) (m : DataMapping)
       (dm2 : List DataMapping),
      m.fromStep ∉ steps.map (fun s => s.name) ∨
        m.toStep ∉ steps.map (fun s => s.name) →
      buildDependencyGraph steps (dm1 ++ m :: dm2) =
        buildDependencyGraph steps (dm1 ++ dm2)) := by
  constructor
  · intro st chainId version chain hget
    have hplan : mgrGetChainExecutionPlan st chainId version = .ok
        { executionOrder := chain.executionOrder
          steps := chain.steps.map fun s =>
            { stepId := s.id, stepName := s.name, order := s.order
              dependencies := ((buildDependencyGraph chain.steps
                chain.dataMapping s.id).map (fun e => e.dependencies)).getD []
              dependents := ((buildDependencyGraph chain.steps
                chain.dataMapping s.id).map (fun e => e.dependents)).getD [] }
          estimatedExecutionTime := none } := by
      simp [mgrGetChainExecutionPlan, hget]
    refine ⟨_, hplan, rfl, by simp, ?_, ?_⟩
    · intro i s hi
      refine ⟨{ stepId := s.id, stepName := s.name, order := s.order
                dependencies := ((buildDependencyGraph chain.steps
                  chain.dataMapping s.id).map (fun e => e.dependencies)).getD []
                dependents := ((buildDependencyGraph chain.steps
                  chain.dataMapping s.id).map (fun e => e.dependents)).getD [] },
             ?_, rfl, rfl, rfl⟩
      simp [List.getElem?_map, hi]
    · intro hnd i s hi hiso
      have hmem : s ∈ chain.steps := by
        rcases List.getElem?_eq_some.1 hi with ⟨hlt, hEq⟩
        exact hEq ▸ List.getElem_mem _
      have hg := buildDependencyGraph_isolated chain.steps chain.dataMapping
        s hmem hnd hiso
      refine ⟨{ stepId := s.id, stepName := s.name, order := s.order
                dependencies := ((buildDependencyGraph chain.steps
                  chain.dataMapping s.id).map (fun e => e.dependencies)).getD []
                dependents := ((buildDependencyGraph chain.steps
                  chain.dataMapping s.id).map (fun e => e.dependents)).getD [] },
             ?_, ?_, ?_⟩
      · simp [List.getElem?_map, hi]
      · simp [hg]
      · simp [hg]
  · intro steps dm1 m dm2 h
    rw [buildDependencyGraph, buildDependencyGraph, List.foldl_append,
      List.foldl_append, List.foldl_cons]
    have hnoop : addMappingEdge steps
        (dm1.foldl (addMappingEdge steps) (initDepGraph steps)) m =
        dm1.foldl (addMappingEdge steps) (initDepGraph steps) := by
      rcases h with h | h
      · rw [addMappingEdge, resolveStepId_eq_none steps _ h]
      · rw [addMappingEdge, resolveStepId_eq_none steps _ h]
        cases resolveStepId steps m.fromStep <;> rfl
    rw [hnoop]

/-- Witness for C3: a stored chain with an isolated step `orphan` and a
mapping edge pointing at the unknown name `ghost` yields a plan with one entry
per step, the orphan entry keyed by its id with empty lists, and the unknown
edge contributing nothing to the graph. -/
theorem c3_execution_plan_shape_witness :
    (∃ plan : ExecutionPlan,
      mgrGetChainExecutionPlan
        { connected := true
          chains := [("c3",
            { id := "c3", name := "ch",
              steps := [{ id := "idA", name := "a", type := StepType.prompt,
                          resourceId := "p1", order := 0 },
                        { id := "idO", name := "orphan", type := StepType.prompt,
                          resourceId := "p2", order := 1 }],
              executionOrder := ExecutionOrder.sequential,
              dataMapping := [⟨"a", "ghost", []⟩],
              version := "1.0.0" })] }
        "c3" none = .ok plan ∧
      plan.steps.length = 2 ∧
      ∃ ps : PlanStep, plan.steps[1]? = some ps ∧ ps.stepId = "idO" ∧
        ps.dependencies = [] ∧ ps.dependents = []) ∧
    buildDependencyGraph
      [{ id := "idA", name := "a", type := StepType.prompt,
         resourceId := "p1", order := 0 },
       { id := "idO", name := "orphan", type := StepType.prompt,
         resourceId := "p2", order := 1 }]
      [⟨"a", "ghost", []⟩] =
    buildDependencyGraph
      [{ id := "idA", name := "a", type := StepType.prompt,
         resourceId := "p1", order := 0 },
       { id := "idO", name := "orphan", type := StepType.prompt,
         resourceId := "p2", order := 1 }]
      [] := by
  constructor
  · obtain ⟨plan, hok, _hexe, hlen, hidx, hiso⟩ :=
      c3_execution_plan_shape.1
        { connected := true
          chains := [("c3",
            { id := "c3", name := "ch",
              steps := [{ id := "idA", name := "a", type := StepType.prompt,
                          resourceId := "p1", order := 0 },
                        { id := "idO", name := "orphan", type := StepType.prompt,
                          resourceId := "p2", order := 1 }],
              executionOrder := ExecutionOrder.sequential,
              dataMapping := [⟨"a", "ghost", []⟩],
              version := "1.0.0" })] }
        "c3" none
        { id := "c3", name := "ch",
          steps := [{ id := "idA", name := "a", type := StepType.prompt,
                      resourceId := "p1", order := 0 },
                    { id := "idO", name := "orphan", type := StepType.prompt,
                      resourceId := "p2", order := 1 }],
          executionOrder := ExecutionOrder.sequential,
          dataMapping := [⟨"a", "ghost", []⟩],
          version := "1.0.0" } rfl
    obtain ⟨ps, hps, hd1, hd2⟩ := hiso (by decide) 1
      { id := "idO", name := "orphan", type := StepType.prompt,
        resourceId := "p2", order := 1 } rfl (by decide)
    obtain ⟨ps2, hps2, hid2, _, _⟩ := hidx 1
      { id := "idO", name := "orphan", type := StepType.prompt,
        resourceId := "p2", order := 1 } rfl
    have hsame : ps = ps2 := by
      rw [hps] at hps2
      exact Option.some_inj.1 hps2
    refine ⟨plan, hok, by simpa using hlen, ps, hps, ?_, hd1, hd2⟩
    rw [hsame, hid2]
  · exact c3_execution_plan_shape.2
      [{ id := "idA", name := "a", type := StepType.prompt,
         resourceId := "p1", order := 0 },
       { id := "idO", name := "orphan", type := StepType.prompt,
         resourceId := "p2", order := 1 }]
      [] ⟨"a", "ghost", []⟩ [] (by decide)
